import Mathlib

/-!
Verification of the node/store synchronization core of
`src/interface/composables/use-sync-relation-nodes.ts`
(directus-extension-flexible-editor).

The analysed source is the reconciliation algorithm between reference
nodes observed in an editor document and records tracked in a shared
per-relation item store.  The shared store (`use-m2a-store`) and the
relation collection handle (`m2aRelation`) are external collaborators of
the analysed file; they are modelled from the specification contracts
(see the doc comments starting with `Modelled from the spec:`).
-/

namespace FlexibleEditor

/-- Identities (UUIDs) are modelled as natural numbers.  Freshness of a
minted identity is modelled by the store counter `nextId`; the UUID
non-collision assumption of the real system corresponds to the
hypothesis that all identities in sight are below `nextId`. -/
abbrev UUID := Nat

/-- An editor field name; `none` models the TypeScript `null`. -/
abbrev EField := Option String

/-- Primitive JS values appearing in record fields. -/
inductive Lit where
  | str : String → Lit
  | num : Int → Lit
deriving DecidableEq, Repr

/-- A JS value read from a record field; `none` models `undefined`. -/
abbrev JsVal := Option Lit

/-- A JS record, as an ordered list of key/value pairs. -/
abbrev JsObj := List (String × JsVal)

/-- Reading a property: a missing key yields `undefined`. -/
def getKey (o : JsObj) (k : String) : JsVal :=
  match o.find? (fun p => p.1 == k) with
  | some p => p.2
  | none => none

/-- Setting a property, with JS object-spread semantics: an existing key
is overwritten in place, a new key is appended. -/
def setKey (o : JsObj) (k : String) (v : JsVal) : JsObj :=
  if o.any (fun p => p.1 == k) then
    o.map (fun p => if p.1 == k then (k, v) else p)
  else o ++ [(k, v)]

/-- Observational equality of JS records: the same value at every key,
with an absent key indistinguishable from an `undefined` value (this is
how JS property reads behave). -/
def jsEquiv (a b : JsObj) : Bool :=
  a.all (fun p => getKey b p.1 == getKey a p.1) &&
  b.all (fun p => getKey a p.1 == getKey b p.1)

/-- Modelled from the spec: one item of the shared M2A item store
(`use-m2a-store`, an external collaborator of the analysed source):
its identity, active flag, "new" (never persisted) flag, owning editor
field, optional pending edits, and the record data. -/
structure M2AStoreItem where
  id : UUID
  active : Bool
  isNew : Bool
  field : EField
  edits : Option JsObj
  item : JsObj
deriving DecidableEq, Repr

/-- Modelled from the spec: the shared item store state.  `nextId`
models the supply of fresh identities handed out for duplicates. -/
structure M2AStore where
  items : List M2AStoreItem
  nextId : UUID
deriving DecidableEq, Repr

namespace M2AStore

/-- Look an item up by identity. -/
def find (s : M2AStore) (id : UUID) : Option M2AStoreItem :=
  s.items.find? (fun it => it.id == id)

/-- Modelled from the spec: `itemExists(id)`. -/
def itemExists (s : M2AStore) (id : UUID) : Bool :=
  (s.find id).isSome

/-- Modelled from the spec: `itemIsActive(id)`. -/
def itemIsActive (s : M2AStore) (id : UUID) : Bool :=
  match s.find id with
  | some it => it.active
  | none => false

/-- Modelled from the spec: `itemIsNew(id)`. -/
def itemIsNew (s : M2AStore) (id : UUID) : Bool :=
  match s.find id with
  | some it => it.isNew
  | none => false

/-- Modelled from the spec: `itemFromDifferentEditor(id, field)` — the
store item is currently owned by a different editor field than this
one. -/
def itemFromDifferentEditor (s : M2AStore) (id : UUID) (field : EField) : Bool :=
  match s.find id with
  | some it => it.field != field
  | none => false

/-- Modelled from the spec: `getItem(id)`. -/
def getItem (s : M2AStore) (id : UUID) : Option M2AStoreItem :=
  s.find id

/-- Update the item carrying the given identity in place. -/
def modifyItem (s : M2AStore) (id : UUID) (f : M2AStoreItem → M2AStoreItem) : M2AStore :=
  { s with items := s.items.map (fun it => if it.id == id then f it else it) }

/-- Modelled from the spec: `activateItem(id)`. -/
def activateItem (s : M2AStore) (id : UUID) : M2AStore :=
  s.modifyItem id (fun it => { it with active := true })

/-- Modelled from the spec: `setField(id, field)` — reassign ownership. -/
def setField (s : M2AStore) (id : UUID) (field : EField) : M2AStore :=
  s.modifyItem id (fun it => { it with field := field })

/-- Write the pending edits of the item carrying the given identity
(models the in-place `storeItem.edits = ...` mutation of the source). -/
def setEdits (s : M2AStore) (id : UUID) (e : Option JsObj) : M2AStore :=
  s.modifyItem id (fun it => { it with edits := e })

/-- Modelled from the spec: `duplicateItem(id, relation)` — mint a fresh
identity for a duplicate record copying the original item's data; the
duplicate is active and new, and starts out owned by the original's
field.  The relation scoping of the real store (junction bookkeeping)
is outside the analysed source and not modelled. -/
def duplicateItem (s : M2AStore) (id : UUID) : M2AStore × UUID :=
  let newId := s.nextId
  match s.find id with
  | some it =>
      ({ items := s.items ++
            [{ id := newId, active := true, isNew := true,
               field := it.field, edits := none, item := it.item }],
         nextId := s.nextId + 1 }, newId)
  | none => ({ s with nextId := s.nextId + 1 }, newId)

/-- The store-side set-difference condition of `deactivateUnusedItems`:
active, owned by this field, and absent from the current identity
list. -/
def unusedHere (currentIds : List UUID) (field : EField) (it : M2AStoreItem) : Bool :=
  it.active && it.field == field && !(currentIds.contains it.id)

/-- Modelled from the spec: `deactivateUnusedItems(currentIds, field)` —
flip to inactive every active item owned by this field whose identity is
absent from the current list, returning the dropped identities. -/
def deactivateUnusedItems (s : M2AStore) (currentIds : List UUID) (field : EField) :
    M2AStore × List UUID :=
  let dropped := (s.items.filter (unusedHere currentIds field)).map (·.id)
  ({ s with
     items := s.items.map (fun it =>
       if unusedHere currentIds field it then { it with active := false } else it) },
   dropped)

end M2AStore

/-- A relation-block reference node of the editor document: its identity
attribute (`node.attrs.id`) and its remaining attributes. -/
structure RelNode where
  id : UUID
  attrs : JsObj
deriving DecidableEq, Repr

/-- Modelled from the spec: the relation collection handle exposes a
display-item lookup; its create/update/remove/delete operations are
observed as emitted calls. -/
structure RelationRef where
  display : List (UUID × JsObj)
deriving DecidableEq, Repr

/-- Modelled from the spec: `findDisplayItem(id) -> item or undefined`. -/
def RelationRef.findDisplayItem (r : RelationRef) (id : UUID) : Option JsObj :=
  (r.display.find? (fun p => p.1 == id)).map (·.2)

/-- A call issued to the relation collection collaborator.  The `remove`
payload is optional because the source passes the result of an
unchecked `findDisplayItem(nodeId)!` lookup straight to `remove`. -/
inductive RelCall where
  | create (item : JsObj)
  | update (edits : JsObj)
  | remove (item : Option JsObj)
  | deleteItem (item : JsObj)
deriving DecidableEq, Repr

/-- A state-mutating call issued to the store collaborator. -/
inductive StoreCall where
  | duplicateItem (origId newId : UUID)
  | activateItem (id : UUID)
  | setField (id : UUID) (field : EField)
  | deactivate (id : UUID)
deriving DecidableEq, Repr

/-- The fixed context of one synchronization pass: the relation handle
and the editor field owning this editor. -/
structure SyncConfig where
  m2aRelation : RelationRef
  editorField : EField
deriving DecidableEq, Repr

/-- `_nodeIdMemory().nodeIdUniqueInEditor`: report whether the identity
was unique so far (`indexOf < 0`), and record it. -/
def nodeIdUniqueInEditor (m : List UUID) (nodeId : UUID) : Bool × List UUID :=
  (!(m.contains nodeId), m ++ [nodeId])

/-- `_nodeIdMemory().replaceLastItem`: `splice(length - 1, 1, nodeId)`. -/
def replaceLastItem (m : List UUID) (nodeId : UUID) : List UUID :=
  m.dropLast ++ [nodeId]

/-- `_mergeUpdatedValues`: spread the display item's `$type`, `$index`
and `$edits` fields into the pending edits; a missing display item
leaves the edits untouched (guarded early return). -/
def mergeUpdatedValues (rel : RelationRef) (edits : JsObj) (nodeId : UUID) : JsObj :=
  match rel.findDisplayItem nodeId with
  | none => edits
  | some item =>
      setKey (setKey (setKey edits "$type" (getKey item "$type"))
        "$index" (getKey item "$index")) "$edits" (getKey item "$edits")

/-- The result of processing one editor node inside `syncInsertedNodes`:
the updated store, the (possibly re-identified) node, the updated
identity memory, and the calls issued while processing it. -/
structure StepOut where
  store : M2AStore
  node : RelNode
  memory : List UUID
  relCalls : List RelCall
  storeCalls : List StoreCall
deriving DecidableEq, Repr

/-- The tail of the `forEach` body after the duplicate/activate branch:
reactivation handling (`_reactivateRelatedItem`, `_mergeUpdatedValues`,
`update`) or `create`.  `reactivated` is `!storeItemIsActive`. -/
def finishStep (cfg : SyncConfig) (store : M2AStore) (node : RelNode)
    (memory : List UUID) (sc : List StoreCall) (reactivated : Bool) :
    Except String StepOut :=
  match store.getItem node.id with
  | none => .error "getItem returned undefined"
  | some storeItem =>
      if !storeItem.isNew && reactivated then
        let removeCall := RelCall.remove (cfg.m2aRelation.findDisplayItem node.id)
        match storeItem.edits with
        | some e =>
            let merged := mergeUpdatedValues cfg.m2aRelation e node.id
            .ok ⟨store.setEdits node.id (some merged), node, memory,
                 [removeCall, .update merged], sc⟩
        | none => .ok ⟨store, node, memory, [removeCall], sc⟩
      else .ok ⟨store, node, memory, [.create storeItem.item], sc⟩

/-- One iteration of the `editorNodes.forEach` body of
`syncInsertedNodes`.  The unchecked `m2aStore.getItem(nodeId)!`
dereference of the source is modelled by an explicit error result. -/
def syncNodeStep (cfg : SyncConfig) (store : M2AStore) (memory : List UUID)
    (node : RelNode) : Except String StepOut :=
  if !(store.itemExists node.id) then
    .ok ⟨store, node, memory, [], []⟩
  else
    let storeItemIsActive := store.itemIsActive node.id
    let u := nodeIdUniqueInEditor memory node.id
    let nodeFromDifferentEditor :=
      store.itemFromDifferentEditor node.id cfg.editorField
    if storeItemIsActive && u.1 && !nodeFromDifferentEditor then
      .ok ⟨store, node, u.2, [], []⟩
    else if storeItemIsActive then
      let d := store.duplicateItem node.id
      let newId := d.2
      let store2 := if nodeFromDifferentEditor
        then d.1.setField newId cfg.editorField else d.1
      finishStep cfg store2 { node with id := newId } (replaceLastItem u.2 newId)
        (if nodeFromDifferentEditor
         then [.duplicateItem node.id newId, .setField newId cfg.editorField]
         else [.duplicateItem node.id newId]) false
    else
      let store2 := if nodeFromDifferentEditor
        then (store.activateItem node.id).setField node.id cfg.editorField
        else store.activateItem node.id
      finishStep cfg store2 node u.2
        (if nodeFromDifferentEditor
         then [.activateItem node.id, .setField node.id cfg.editorField]
         else [.activateItem node.id]) true

/-- The result of a pass (or of the insertion phase): final store, the
document's relation nodes after in-place patches, the final identity
memory, and the calls issued, in order. -/
structure PassOut where
  store : M2AStore
  doc : List RelNode
  memory : List UUID
  relCalls : List RelCall
  storeCalls : List StoreCall
deriving DecidableEq, Repr

/-- `syncInsertedNodes`: fold the per-node step over the extracted node
snapshot in document order. -/
def syncInsertedNodes (cfg : SyncConfig) (store : M2AStore) (memory : List UUID) :
    List RelNode → Except String PassOut
  | [] => .ok ⟨store, [], memory, [], []⟩
  | n :: ns =>
      match syncNodeStep cfg store memory n with
      | .error e => .error e
      | .ok o =>
          match syncInsertedNodes cfg o.store o.memory ns with
          | .error e => .error e
          | .ok rest =>
              .ok ⟨rest.store, o.node :: rest.doc, rest.memory,
                   o.relCalls ++ rest.relCalls, o.storeCalls ++ rest.storeCalls⟩

/-- `syncRemovedNodes`: deactivate the identities owned by this field
that are absent from the current snapshot, returning the new store and
the dropped identities. -/
def syncRemovedNodes (cfg : SyncConfig) (store : M2AStore) (editorNodes : List RelNode) :
    M2AStore × List UUID :=
  store.deactivateUnusedItems (editorNodes.map (·.id)) cfg.editorField

/-- `_removeRelatedItems`: an early return on an empty list, otherwise
one delete call per identity whose display item is found; identities
with a missing display item are silently skipped. -/
def removeRelatedItems (cfg : SyncConfig) (nodeIds : List UUID) : List RelCall :=
  if nodeIds.isEmpty then []
  else nodeIds.filterMap
    (fun id => (cfg.m2aRelation.findDisplayItem id).map RelCall.deleteItem)

/-- `syncRelationNodes`: extract the node snapshot once, run removal
reconciliation and then insertion reconciliation over it. -/
def syncRelationNodes (cfg : SyncConfig) (store : M2AStore) (doc : List RelNode) :
    Except String PassOut :=
  let r := syncRemovedNodes cfg store doc
  match syncInsertedNodes cfg r.1 [] doc with
  | .error e => .error e
  | .ok o =>
      .ok ⟨o.store, o.doc, o.memory,
           removeRelatedItems cfg r.2 ++ o.relCalls,
           r.2.map StoreCall.deactivate ++ o.storeCalls⟩

/-- All item identities recorded in the store are below the fresh-id
counter, and no two store entries share an identity.  This is the
model-level counterpart of UUID freshness and store keyedness. -/
def storeWF (s : M2AStore) : Prop :=
  (∀ it ∈ s.items, it.id < s.nextId) ∧ (s.items.map (·.id)).Nodup

/-- All node identities in the document are below the fresh-id counter
(model-level counterpart of UUID freshness). -/
def docBound (s : M2AStore) (doc : List RelNode) : Prop :=
  ∀ n ∈ doc, n.id < s.nextId

instance (s : M2AStore) : Decidable (storeWF s) := by
  unfold storeWF; infer_instance

instance (s : M2AStore) (doc : List RelNode) : Decidable (docBound s doc) := by
  unfold docBound; infer_instance

end FlexibleEditor

namespace FlexibleEditor

/-! ### Basic lookup lemmas -/

theorem find?_map_id_preserve (l : List M2AStoreItem) (g : M2AStoreItem → M2AStoreItem)
    (hg : ∀ it, (g it).id = it.id) (x : UUID) :
    (l.map g).find? (fun it => it.id == x) = (l.find? (fun it => it.id == x)).map g := by
  have hp : ((fun it : M2AStoreItem => it.id == x) ∘ g) = (fun it => it.id == x) := by
    funext it
    simp [Function.comp, hg]
  rw [List.find?_map, hp]

theorem M2AStore.find_eq_id {s : M2AStore} {x : UUID} {it : M2AStoreItem}
    (h : s.find x = some it) : it.id = x := by
  have := List.find?_some h
  simpa using this

theorem M2AStore.find_mem {s : M2AStore} {x : UUID} {it : M2AStoreItem}
    (h : s.find x = some it) : it ∈ s.items :=
  List.mem_of_find?_eq_some h

theorem M2AStore.itemExists_iff {s : M2AStore} {x : UUID} :
    s.itemExists x = true ↔ ∃ it, s.find x = some it := by
  simp [M2AStore.itemExists, Option.isSome_iff_exists]

theorem M2AStore.itemExists_none {s : M2AStore} {x : UUID}
    (h : s.itemExists x = false) : s.find x = none := by
  simp [M2AStore.itemExists] at h
  simpa [Option.isNone_iff_eq_none] using h

theorem M2AStore.find_modify (s : M2AStore) (y : UUID) (f : M2AStoreItem → M2AStoreItem)
    (hf : ∀ it, (f it).id = it.id) (x : UUID) :
    (s.modifyItem y f).find x
      = (s.find x).map (fun it => if it.id == y then f it else it) := by
  unfold M2AStore.modifyItem M2AStore.find
  exact find?_map_id_preserve _ _ (fun it => by by_cases h : it.id == y <;> simp [h, hf]) x

theorem M2AStore.modify_find_self (s : M2AStore) (x : UUID) (f : M2AStoreItem → M2AStoreItem)
    (hf : ∀ it, (f it).id = it.id) :
    (s.modifyItem x f).find x = (s.find x).map f := by
  rw [M2AStore.find_modify s x f hf x]
  cases h : s.find x with
  | none => rfl
  | some it => simp [M2AStore.find_eq_id h]

theorem M2AStore.modify_find_other (s : M2AStore) (y : UUID) (f : M2AStoreItem → M2AStoreItem)
    (hf : ∀ it, (f it).id = it.id) (x : UUID) (hxy : x ≠ y) :
    (s.modifyItem y f).find x = s.find x := by
  rw [M2AStore.find_modify s y f hf x]
  cases h : s.find x with
  | none => rfl
  | some it => simp [M2AStore.find_eq_id h, hxy]

theorem M2AStore.modify_ids (s : M2AStore) (y : UUID) (f : M2AStoreItem → M2AStoreItem)
    (hf : ∀ it, (f it).id = it.id) :
    (s.modifyItem y f).items.map (·.id) = s.items.map (·.id) := by
  unfold M2AStore.modifyItem
  simp only [List.map_map]
  apply List.map_congr_left
  intro it _
  by_cases h : it.id = y <;> simp [h, hf]

theorem M2AStore.modify_nextId (s : M2AStore) (y : UUID) (f : M2AStoreItem → M2AStoreItem) :
    (s.modifyItem y f).nextId = s.nextId := rfl

theorem activateItem_id (it : M2AStoreItem) :
    ({ it with active := true } : M2AStoreItem).id = it.id := rfl

theorem M2AStore.dup_snd (s : M2AStore) (origId : UUID) :
    (s.duplicateItem origId).2 = s.nextId := by
  unfold M2AStore.duplicateItem
  cases s.find origId <;> rfl

theorem M2AStore.dup_nextId (s : M2AStore) (origId : UUID) :
    (s.duplicateItem origId).1.nextId = s.nextId + 1 := by
  unfold M2AStore.duplicateItem
  cases s.find origId <;> rfl

theorem M2AStore.dup_items (s : M2AStore) {origId : UUID} {orig : M2AStoreItem}
    (h : s.find origId = some orig) :
    (s.duplicateItem origId).1.items
      = s.items ++ [{ id := s.nextId, active := true, isNew := true,
                      field := orig.field, edits := none, item := orig.item }] := by
  unfold M2AStore.duplicateItem
  rw [h]

theorem M2AStore.dup_ids (s : M2AStore) {origId : UUID} {orig : M2AStoreItem}
    (h : s.find origId = some orig) :
    (s.duplicateItem origId).1.items.map (·.id) = s.items.map (·.id) ++ [s.nextId] := by
  rw [M2AStore.dup_items s h]
  simp

theorem M2AStore.dup_find_small (s : M2AStore) {origId : UUID} {orig : M2AStoreItem}
    (h : s.find origId = some orig) (x : UUID) (hx : x ≠ s.nextId) :
    (s.duplicateItem origId).1.find x = s.find x := by
  unfold M2AStore.find
  rw [M2AStore.dup_items s h, List.find?_append]
  cases hf : s.items.find? (fun it => it.id == x) with
  | some it => rfl
  | none =>
      simp only [Option.none_or]
      simp only [List.find?_cons, List.find?_nil]
      have : (s.nextId == x) = false := by
        simp only [beq_eq_false_iff_ne, ne_eq]
        exact fun e => hx e.symm
      simp [this]

theorem M2AStore.dup_find_new (s : M2AStore) {origId : UUID} {orig : M2AStoreItem}
    (hb : ∀ it ∈ s.items, it.id < s.nextId) (h : s.find origId = some orig) :
    (s.duplicateItem origId).1.find s.nextId
      = some { id := s.nextId, active := true, isNew := true,
               field := orig.field, edits := none, item := orig.item } := by
  unfold M2AStore.find
  rw [M2AStore.dup_items s h, List.find?_append]
  have : s.items.find? (fun it => it.id == s.nextId) = none := by
    rw [List.find?_eq_none]
    intro it hit
    have h2 := hb it hit
    simp only [beq_iff_eq]
    exact Nat.ne_of_lt h2
  rw [this]
  simp

end FlexibleEditor

namespace FlexibleEditor

/-! ### Removal-phase lemmas -/

theorem M2AStore.deact_nextId (s : M2AStore) (ids : List UUID) (F : EField) :
    (s.deactivateUnusedItems ids F).1.nextId = s.nextId := rfl

theorem M2AStore.deact_dropped (s : M2AStore) (ids : List UUID) (F : EField) :
    (s.deactivateUnusedItems ids F).2
      = (s.items.filter (M2AStore.unusedHere ids F)).map (·.id) := rfl

theorem M2AStore.deact_find (s : M2AStore) (ids : List UUID) (F : EField) (x : UUID) :
    (s.deactivateUnusedItems ids F).1.find x
      = (s.find x).map (fun it =>
          if M2AStore.unusedHere ids F it then { it with active := false } else it) := by
  unfold M2AStore.deactivateUnusedItems M2AStore.find
  exact find?_map_id_preserve _ _ (fun it => by by_cases h : M2AStore.unusedHere ids F it <;> simp [h]) x

theorem M2AStore.deact_ids (s : M2AStore) (ids : List UUID) (F : EField) :
    (s.deactivateUnusedItems ids F).1.items.map (·.id) = s.items.map (·.id) := by
  unfold M2AStore.deactivateUnusedItems
  simp only [List.map_map]
  apply List.map_congr_left
  intro it _
  by_cases h : M2AStore.unusedHere ids F it <;> simp [h]

theorem M2AStore.deact_noop (s : M2AStore) (ids : List UUID) (F : EField)
    (h : ∀ it ∈ s.items, M2AStore.unusedHere ids F it = false) :
    s.deactivateUnusedItems ids F = (s, []) := by
  have hfil : s.items.filter (M2AStore.unusedHere ids F) = [] :=
    List.filter_eq_nil_iff.mpr (fun it hit => by simp [h it hit])
  have hmap : (s.items.map (fun it =>
      if M2AStore.unusedHere ids F it then { it with active := false } else it)) = s.items := by
    refine (List.map_congr_left (fun it hit => ?_)).trans (List.map_id' _)
    simp [h it hit]
  unfold M2AStore.deactivateUnusedItems
  simp only [hfil, hmap, List.map_nil]

theorem M2AStore.deact_post (s : M2AStore) (ids : List UUID) (F : EField) :
    ∀ it ∈ (s.deactivateUnusedItems ids F).1.items,
      it.active = true → it.field = F → it.id ∈ ids := by
  intro it hit ha hF
  unfold M2AStore.deactivateUnusedItems at hit
  simp only [List.mem_map] at hit
  obtain ⟨it0, hit0, heq⟩ := hit
  by_cases hc : M2AStore.unusedHere ids F it0
  · rw [if_pos hc] at heq
    rw [heq.symm] at ha
    simp at ha
  · rw [if_neg hc] at heq
    subst heq
    by_cases hmem : it0.id ∈ ids
    · exact hmem
    · exfalso
      apply hc
      unfold M2AStore.unusedHere
      simp [ha, hF, hmem]

end FlexibleEditor

namespace FlexibleEditor

/-! ### Operation-specific lookup corollaries -/

theorem M2AStore.setField_find_self {s : M2AStore} {y : UUID} (F : EField)
    {orig : M2AStoreItem} (h : s.find y = some orig) :
    (s.setField y F).find y = some { orig with field := F } := by
  unfold M2AStore.setField
  rw [M2AStore.modify_find_self s y (fun it => { it with field := F }) (fun it => rfl), h]
  rfl

theorem M2AStore.setField_find_other (s : M2AStore) (y : UUID) (F : EField)
    (x : UUID) (hxy : x ≠ y) : (s.setField y F).find x = s.find x := by
  unfold M2AStore.setField
  exact M2AStore.modify_find_other s y (fun it => { it with field := F }) (fun it => rfl) x hxy

theorem M2AStore.setField_ids (s : M2AStore) (y : UUID) (F : EField) :
    (s.setField y F).items.map (·.id) = s.items.map (·.id) := by
  unfold M2AStore.setField
  exact M2AStore.modify_ids s y (fun it => { it with field := F }) (fun it => rfl)

theorem M2AStore.activate_find_self {s : M2AStore} {y : UUID}
    {orig : M2AStoreItem} (h : s.find y = some orig) :
    (s.activateItem y).find y = some { orig with active := true } := by
  unfold M2AStore.activateItem
  rw [M2AStore.modify_find_self s y (fun it => { it with active := true }) (fun it => rfl), h]
  rfl

theorem M2AStore.activate_find_other (s : M2AStore) (y : UUID)
    (x : UUID) (hxy : x ≠ y) : (s.activateItem y).find x = s.find x := by
  unfold M2AStore.activateItem
  exact M2AStore.modify_find_other s y (fun it => { it with active := true }) (fun it => rfl) x hxy

theorem M2AStore.activate_ids (s : M2AStore) (y : UUID) :
    (s.activateItem y).items.map (·.id) = s.items.map (·.id) := by
  unfold M2AStore.activateItem
  exact M2AStore.modify_ids s y (fun it => { it with active := true }) (fun it => rfl)

theorem M2AStore.setEdits_find_self {s : M2AStore} {y : UUID} (e : Option JsObj)
    {orig : M2AStoreItem} (h : s.find y = some orig) :
    (s.setEdits y e).find y = some { orig with edits := e } := by
  unfold M2AStore.setEdits
  rw [M2AStore.modify_find_self s y (fun it => { it with edits := e }) (fun it => rfl), h]
  rfl

theorem M2AStore.setEdits_find_other (s : M2AStore) (y : UUID) (e : Option JsObj)
    (x : UUID) (hxy : x ≠ y) : (s.setEdits y e).find x = s.find x := by
  unfold M2AStore.setEdits
  exact M2AStore.modify_find_other s y (fun it => { it with edits := e }) (fun it => rfl) x hxy

theorem M2AStore.setEdits_ids (s : M2AStore) (y : UUID) (e : Option JsObj) :
    (s.setEdits y e).items.map (·.id) = s.items.map (·.id) := by
  unfold M2AStore.setEdits
  exact M2AStore.modify_ids s y (fun it => { it with edits := e }) (fun it => rfl)

end FlexibleEditor

namespace FlexibleEditor

/-! ### Branch-level store shapes of the per-node step -/

/-- The store after the duplicate branch of the source (duplication plus
the conditional ownership reassignment on the minted identity). -/
def duplicationBase (cfg : SyncConfig) (store : M2AStore) (id : UUID) : M2AStore :=
  if store.itemFromDifferentEditor id cfg.editorField
  then (store.duplicateItem id).1.setField store.nextId cfg.editorField
  else (store.duplicateItem id).1

/-- The store after the reactivation branch head of the source
(activation plus the conditional ownership reassignment). -/
def activationBase (cfg : SyncConfig) (store : M2AStore) (id : UUID) : M2AStore :=
  if store.itemFromDifferentEditor id cfg.editorField
  then (store.activateItem id).setField id cfg.editorField
  else store.activateItem id

theorem duplicationBase_find_other (cfg : SyncConfig) (store : M2AStore) {id : UUID}
    {orig : M2AStoreItem} (hfind : store.find id = some orig) (x : UUID)
    (hx : x ≠ store.nextId) :
    (duplicationBase cfg store id).find x = store.find x := by
  unfold duplicationBase
  by_cases hd : store.itemFromDifferentEditor id cfg.editorField
  · rw [if_pos hd, M2AStore.setField_find_other _ _ _ x hx,
        M2AStore.dup_find_small store hfind x hx]
  · rw [if_neg hd, M2AStore.dup_find_small store hfind x hx]

theorem duplicationBase_find_new (cfg : SyncConfig) (store : M2AStore) {id : UUID}
    {orig : M2AStoreItem} (hb : ∀ it ∈ store.items, it.id < store.nextId)
    (hfind : store.find id = some orig) :
    (duplicationBase cfg store id).find store.nextId
      = some { id := store.nextId, active := true, isNew := true,
               field := if store.itemFromDifferentEditor id cfg.editorField = true then cfg.editorField else orig.field,
               edits := none, item := orig.item } := by
  unfold duplicationBase
  by_cases hd : store.itemFromDifferentEditor id cfg.editorField
  · rw [if_pos hd,
        M2AStore.setField_find_self cfg.editorField (M2AStore.dup_find_new store hb hfind)]
    simp [hd]
  · rw [if_neg hd, M2AStore.dup_find_new store hb hfind]
    simp [hd]

theorem duplicationBase_nextId (cfg : SyncConfig) (store : M2AStore) (id : UUID) :
    (duplicationBase cfg store id).nextId = store.nextId + 1 := by
  unfold duplicationBase
  by_cases hd : store.itemFromDifferentEditor id cfg.editorField
  · rw [if_pos hd]
    show (store.duplicateItem id).1.nextId = store.nextId + 1
    exact M2AStore.dup_nextId store id
  · rw [if_neg hd]
    exact M2AStore.dup_nextId store id

theorem duplicationBase_ids (cfg : SyncConfig) (store : M2AStore) {id : UUID}
    {orig : M2AStoreItem} (hfind : store.find id = some orig) :
    (duplicationBase cfg store id).items.map (·.id)
      = store.items.map (·.id) ++ [store.nextId] := by
  unfold duplicationBase
  by_cases hd : store.itemFromDifferentEditor id cfg.editorField
  · rw [if_pos hd, M2AStore.setField_ids, M2AStore.dup_ids store hfind]
  · rw [if_neg hd, M2AStore.dup_ids store hfind]

theorem activationBase_find_self (cfg : SyncConfig) (store : M2AStore) {id : UUID}
    {orig : M2AStoreItem} (hfind : store.find id = some orig) :
    (activationBase cfg store id).find id
      = some { orig with
               active := true,
               field := if store.itemFromDifferentEditor id cfg.editorField = true then cfg.editorField else orig.field } := by
  unfold activationBase
  by_cases hd : store.itemFromDifferentEditor id cfg.editorField
  · rw [if_pos hd,
        M2AStore.setField_find_self cfg.editorField (M2AStore.activate_find_self hfind)]
    simp [hd]
  · rw [if_neg hd, M2AStore.activate_find_self hfind]
    simp [hd]

theorem activationBase_find_other (cfg : SyncConfig) (store : M2AStore) (id : UUID)
    (x : UUID) (hx : x ≠ id) :
    (activationBase cfg store id).find x = store.find x := by
  unfold activationBase
  by_cases hd : store.itemFromDifferentEditor id cfg.editorField
  · rw [if_pos hd, M2AStore.setField_find_other _ _ _ x hx,
        M2AStore.activate_find_other _ _ x hx]
  · rw [if_neg hd, M2AStore.activate_find_other _ _ x hx]

theorem activationBase_nextId (cfg : SyncConfig) (store : M2AStore) (id : UUID) :
    (activationBase cfg store id).nextId = store.nextId := by
  unfold activationBase
  by_cases hd : store.itemFromDifferentEditor id cfg.editorField
  · rw [if_pos hd]; rfl
  · rw [if_neg hd]; rfl

theorem activationBase_ids (cfg : SyncConfig) (store : M2AStore) (id : UUID) :
    (activationBase cfg store id).items.map (·.id) = store.items.map (·.id) := by
  unfold activationBase
  by_cases hd : store.itemFromDifferentEditor id cfg.editorField
  · rw [if_pos hd, M2AStore.setField_ids, M2AStore.activate_ids]
  · rw [if_neg hd, M2AStore.activate_ids]

end FlexibleEditor

namespace FlexibleEditor

/-! ### Characterization of finishStep and the per-node step branches -/

theorem finishStep_create (cfg : SyncConfig) (store : M2AStore) (node : RelNode)
    (memory : List UUID) (sc : List StoreCall) {it : M2AStoreItem}
    (hit : store.getItem node.id = some it) :
    finishStep cfg store node memory sc false
      = .ok ⟨store, node, memory, [.create it.item], sc⟩ := by
  unfold finishStep
  rw [hit]
  simp

theorem finishStep_react_new (cfg : SyncConfig) (store : M2AStore) (node : RelNode)
    (memory : List UUID) (sc : List StoreCall) {it : M2AStoreItem}
    (hit : store.getItem node.id = some it) (hnew : it.isNew = true) :
    finishStep cfg store node memory sc true
      = .ok ⟨store, node, memory, [.create it.item], sc⟩ := by
  unfold finishStep
  rw [hit]
  simp [hnew]

theorem finishStep_react_noedits (cfg : SyncConfig) (store : M2AStore) (node : RelNode)
    (memory : List UUID) (sc : List StoreCall) {it : M2AStoreItem}
    (hit : store.getItem node.id = some it) (hnew : it.isNew = false)
    (hed : it.edits = none) :
    finishStep cfg store node memory sc true
      = .ok ⟨store, node, memory,
             [.remove (cfg.m2aRelation.findDisplayItem node.id)], sc⟩ := by
  unfold finishStep
  rw [hit]
  simp [hnew, hed]

theorem finishStep_react_edits (cfg : SyncConfig) (store : M2AStore) (node : RelNode)
    (memory : List UUID) (sc : List StoreCall) {it : M2AStoreItem} {e : JsObj}
    (hit : store.getItem node.id = some it) (hnew : it.isNew = false)
    (hed : it.edits = some e) :
    finishStep cfg store node memory sc true
      = .ok ⟨store.setEdits node.id (some (mergeUpdatedValues cfg.m2aRelation e node.id)),
             node, memory,
             [.remove (cfg.m2aRelation.findDisplayItem node.id),
              .update (mergeUpdatedValues cfg.m2aRelation e node.id)], sc⟩ := by
  unfold finishStep
  rw [hit]
  simp [hnew, hed]

theorem step_orphan (cfg : SyncConfig) (store : M2AStore) (memory : List UUID)
    (node : RelNode) (h : store.itemExists node.id = false) :
    syncNodeStep cfg store memory node = .ok ⟨store, node, memory, [], []⟩ := by
  unfold syncNodeStep
  rw [h]
  simp

theorem step_noop (cfg : SyncConfig) (store : M2AStore) (memory : List UUID)
    (node : RelNode) {orig : M2AStoreItem} (hfind : store.find node.id = some orig)
    (ha : orig.active = true) (hu : memory.contains node.id = false)
    (hd : store.itemFromDifferentEditor node.id cfg.editorField = false) :
    syncNodeStep cfg store memory node
      = .ok ⟨store, node, memory ++ [node.id], [], []⟩ := by
  have hex : store.itemExists node.id = true := by
    simp [M2AStore.itemExists, hfind]
  have hact : store.itemIsActive node.id = true := by
    simp [M2AStore.itemIsActive, hfind, ha]
  unfold syncNodeStep
  rw [hex]
  simp only [nodeIdUniqueInEditor, hact, hd, hu, Bool.not_true, Bool.not_false,
    Bool.true_and, Bool.and_true, ite_true, ite_false, Bool.false_eq_true,
    if_false, if_true]

theorem step_dup (cfg : SyncConfig) (store : M2AStore) (memory : List UUID)
    (node : RelNode) {orig : M2AStoreItem} (hfind : store.find node.id = some orig)
    (ha : orig.active = true) (hb : ∀ it ∈ store.items, it.id < store.nextId)
    (hfail : memory.contains node.id = true
      ∨ store.itemFromDifferentEditor node.id cfg.editorField = true) :
    syncNodeStep cfg store memory node = .ok
      ⟨duplicationBase cfg store node.id, { node with id := store.nextId },
       memory ++ [store.nextId], [RelCall.create orig.item],
       if store.itemFromDifferentEditor node.id cfg.editorField
       then [.duplicateItem node.id store.nextId, .setField store.nextId cfg.editorField]
       else [.duplicateItem node.id store.nextId]⟩ := by
  have hex : store.itemExists node.id = true := by
    simp [M2AStore.itemExists, hfind]
  have hact : store.itemIsActive node.id = true := by
    simp [M2AStore.itemIsActive, hfind, ha]
  have hrl : replaceLastItem (memory ++ [node.id]) store.nextId
      = memory ++ [store.nextId] := by
    unfold replaceLastItem
    rw [List.dropLast_concat]
  by_cases hd : store.itemFromDifferentEditor node.id cfg.editorField = true
  · have hit : (duplicationBase cfg store node.id).getItem store.nextId
        = some { id := store.nextId, active := true, isNew := true,
                 field := cfg.editorField, edits := none, item := orig.item } := by
      rw [show (duplicationBase cfg store node.id).getItem store.nextId
            = (duplicationBase cfg store node.id).find store.nextId from rfl]
      rw [duplicationBase_find_new cfg store hb hfind]
      simp [hd]
    have hcond : (store.itemIsActive node.id && (nodeIdUniqueInEditor memory node.id).1
        && !(store.itemFromDifferentEditor node.id cfg.editorField)) = false := by
      simp [hd]
    unfold syncNodeStep
    rw [hex]
    simp only [Bool.not_true, Bool.false_eq_true, if_false, hcond, hact, hd,
      M2AStore.dup_snd, hrl, ite_true, if_true]
    rw [show ((store.duplicateItem node.id).1.setField store.nextId cfg.editorField)
          = duplicationBase cfg store node.id from (by unfold duplicationBase; rw [if_pos hd])]
    rw [finishStep_create cfg _ _ _ _ hit]
    simp [nodeIdUniqueInEditor, hrl]
  · have hdf : store.itemFromDifferentEditor node.id cfg.editorField = false :=
      Bool.not_eq_true _ ▸ (by simpa using hd)
    have hu : memory.contains node.id = true := by
      rcases hfail with hu | hdd
      · exact hu
      · rw [hdf] at hdd
        exact absurd hdd (by simp)
    have hit : (duplicationBase cfg store node.id).getItem store.nextId
        = some { id := store.nextId, active := true, isNew := true,
                 field := orig.field, edits := none, item := orig.item } := by
      rw [show (duplicationBase cfg store node.id).getItem store.nextId
            = (duplicationBase cfg store node.id).find store.nextId from rfl]
      rw [duplicationBase_find_new cfg store hb hfind]
      simp [hdf]
    have hcond : (store.itemIsActive node.id && (nodeIdUniqueInEditor memory node.id).1
        && !(store.itemFromDifferentEditor node.id cfg.editorField)) = false := by
      simp only [nodeIdUniqueInEditor, hu, Bool.not_true, Bool.and_false, Bool.false_and]
    unfold syncNodeStep
    rw [hex]
    simp only [Bool.not_true, Bool.false_eq_true, if_false, hcond, hact, hdf,
      M2AStore.dup_snd, hrl, ite_true, ite_false, if_true]
    rw [show ((store.duplicateItem node.id).1)
          = duplicationBase cfg store node.id from (by unfold duplicationBase; rw [hdf]; simp)]
    rw [finishStep_create cfg _ _ _ _ hit]
    simp [nodeIdUniqueInEditor, hrl, hu]
    simpa using hu

theorem step_act_reduces (cfg : SyncConfig) (store : M2AStore) (memory : List UUID)
    (node : RelNode) {orig : M2AStoreItem} (hfind : store.find node.id = some orig)
    (ha : orig.active = false) :
    syncNodeStep cfg store memory node
      = finishStep cfg (activationBase cfg store node.id) node (memory ++ [node.id])
          (if store.itemFromDifferentEditor node.id cfg.editorField
           then [.activateItem node.id, .setField node.id cfg.editorField]
           else [.activateItem node.id]) true := by
  have hex : store.itemExists node.id = true := by
    simp [M2AStore.itemExists, hfind]
  have hactf : store.itemIsActive node.id = false := by
    simp [M2AStore.itemIsActive, hfind, ha]
  unfold syncNodeStep
  rw [hex]
  by_cases hd : store.itemFromDifferentEditor node.id cfg.editorField = true
  · simp only [hactf, hd, Bool.false_and, Bool.false_eq_true, if_false, ite_true,
      if_true, nodeIdUniqueInEditor, Bool.not_true]
    rw [show (store.activateItem node.id).setField node.id cfg.editorField
          = activationBase cfg store node.id from (by unfold activationBase; rw [if_pos hd])]
  · have hdf : store.itemFromDifferentEditor node.id cfg.editorField = false :=
      Bool.not_eq_true _ ▸ (by simpa using hd)
    simp only [hactf, hdf, Bool.false_and, Bool.false_eq_true, if_false, ite_false,
      nodeIdUniqueInEditor, Bool.not_false, Bool.not_true]
    rw [show store.activateItem node.id
          = activationBase cfg store node.id from (by unfold activationBase; rw [hdf]; simp)]

theorem step_act_new (cfg : SyncConfig) (store : M2AStore) (memory : List UUID)
    (node : RelNode) {orig : M2AStoreItem} (hfind : store.find node.id = some orig)
    (ha : orig.active = false) (hnew : orig.isNew = true) :
    syncNodeStep cfg store memory node = .ok
      ⟨activationBase cfg store node.id, node, memory ++ [node.id],
       [RelCall.create orig.item],
       if store.itemFromDifferentEditor node.id cfg.editorField
       then [.activateItem node.id, .setField node.id cfg.editorField]
       else [.activateItem node.id]⟩ := by
  rw [step_act_reduces cfg store memory node hfind ha]
  have hit : (activationBase cfg store node.id).getItem node.id
      = some { orig with
               active := true,
               field := if store.itemFromDifferentEditor node.id cfg.editorField = true then cfg.editorField else orig.field } :=
    activationBase_find_self cfg store hfind
  rw [finishStep_react_new cfg _ _ _ _ hit hnew]

theorem step_act_old_noedits (cfg : SyncConfig) (store : M2AStore) (memory : List UUID)
    (node : RelNode) {orig : M2AStoreItem} (hfind : store.find node.id = some orig)
    (ha : orig.active = false) (hnew : orig.isNew = false) (hed : orig.edits = none) :
    syncNodeStep cfg store memory node = .ok
      ⟨activationBase cfg store node.id, node, memory ++ [node.id],
       [RelCall.remove (cfg.m2aRelation.findDisplayItem node.id)],
       if store.itemFromDifferentEditor node.id cfg.editorField
       then [.activateItem node.id, .setField node.id cfg.editorField]
       else [.activateItem node.id]⟩ := by
  rw [step_act_reduces cfg store memory node hfind ha]
  have hit : (activationBase cfg store node.id).getItem node.id
      = some { orig with
               active := true,
               field := if store.itemFromDifferentEditor node.id cfg.editorField = true then cfg.editorField else orig.field } :=
    activationBase_find_self cfg store hfind
  rw [finishStep_react_noedits cfg _ _ _ _ hit hnew hed]

theorem step_act_old_edits (cfg : SyncConfig) (store : M2AStore) (memory : List UUID)
    (node : RelNode) {orig : M2AStoreItem} {e : JsObj}
    (hfind : store.find node.id = some orig)
    (ha : orig.active = false) (hnew : orig.isNew = false) (hed : orig.edits = some e) :
    syncNodeStep cfg store memory node = .ok
      ⟨(activationBase cfg store node.id).setEdits node.id
          (some (mergeUpdatedValues cfg.m2aRelation e node.id)),
       node, memory ++ [node.id],
       [RelCall.remove (cfg.m2aRelation.findDisplayItem node.id),
        RelCall.update (mergeUpdatedValues cfg.m2aRelation e node.id)],
       if store.itemFromDifferentEditor node.id cfg.editorField
       then [.activateItem node.id, .setField node.id cfg.editorField]
       else [.activateItem node.id]⟩ := by
  rw [step_act_reduces cfg store memory node hfind ha]
  have hit : (activationBase cfg store node.id).getItem node.id
      = some { orig with
               active := true,
               field := if store.itemFromDifferentEditor node.id cfg.editorField = true then cfg.editorField else orig.field } :=
    activationBase_find_self cfg store hfind
  rw [finishStep_react_edits cfg _ _ _ _ hit hnew hed]

theorem step_act_shape (cfg : SyncConfig) (store : M2AStore) (memory : List UUID)
    (node : RelNode) {orig : M2AStoreItem} (hfind : store.find node.id = some orig)
    (ha : orig.active = false) :
    ∃ st2 rc sc, syncNodeStep cfg store memory node
        = .ok ⟨st2, node, memory ++ [node.id], rc, sc⟩ ∧
      (st2 = activationBase cfg store node.id ∨
       ∃ e2, st2 = (activationBase cfg store node.id).setEdits node.id (some e2)) := by
  by_cases hnew : orig.isNew = true
  · exact ⟨_, _, _, step_act_new cfg store memory node hfind ha hnew, Or.inl rfl⟩
  · have hnf : orig.isNew = false := Bool.not_eq_true _ ▸ (by simpa using hnew)
    cases hed : orig.edits with
    | none => exact ⟨_, _, _, step_act_old_noedits cfg store memory node hfind ha hnf hed, Or.inl rfl⟩
    | some e =>
        exact ⟨_, _, _, step_act_old_edits cfg store memory node hfind ha hnf hed,
          Or.inr ⟨_, rfl⟩⟩

/-! ### Pass plumbing: equations, inversion and totality -/

theorem syncInsertedNodes_nil (cfg : SyncConfig) (st : M2AStore) (mem : List UUID) :
    syncInsertedNodes cfg st mem [] = .ok ⟨st, [], mem, [], []⟩ := rfl

theorem syncInsertedNodes_cons_ok (cfg : SyncConfig) (st : M2AStore) (mem : List UUID)
    (n : RelNode) (ns : List RelNode) {o1 : StepOut} {rest : PassOut}
    (h1 : syncNodeStep cfg st mem n = .ok o1)
    (h2 : syncInsertedNodes cfg o1.store o1.memory ns = .ok rest) :
    syncInsertedNodes cfg st mem (n :: ns)
      = .ok ⟨rest.store, o1.node :: rest.doc, rest.memory,
             o1.relCalls ++ rest.relCalls, o1.storeCalls ++ rest.storeCalls⟩ := by
  simp only [syncInsertedNodes, h1, h2]

theorem syncInsertedNodes_cons_inv (cfg : SyncConfig) (st : M2AStore) (mem : List UUID)
    (n : RelNode) (ns : List RelNode) {o : PassOut}
    (h : syncInsertedNodes cfg st mem (n :: ns) = .ok o) :
    ∃ o1 rest, syncNodeStep cfg st mem n = .ok o1 ∧
      syncInsertedNodes cfg o1.store o1.memory ns = .ok rest ∧
      o = ⟨rest.store, o1.node :: rest.doc, rest.memory,
           o1.relCalls ++ rest.relCalls, o1.storeCalls ++ rest.storeCalls⟩ := by
  rw [show syncInsertedNodes cfg st mem (n :: ns)
        = (match syncNodeStep cfg st mem n with
           | .error e => .error e
           | .ok o1 =>
               match syncInsertedNodes cfg o1.store o1.memory ns with
               | .error e => .error e
               | .ok rest =>
                   .ok ⟨rest.store, o1.node :: rest.doc, rest.memory,
                        o1.relCalls ++ rest.relCalls, o1.storeCalls ++ rest.storeCalls⟩)
        from rfl] at h
  cases h1 : syncNodeStep cfg st mem n with
  | error e =>
      simp only [h1] at h
      exact absurd h (by simp)
  | ok o1 =>
      simp only [h1] at h
      cases h2 : syncInsertedNodes cfg o1.store o1.memory ns with
      | error e =>
          simp only [h2] at h
          exact absurd h (by simp)
      | ok rest =>
          simp only [h2] at h
          refine ⟨o1, rest, rfl, h2, ?_⟩
          injection h with h
          exact h.symm

theorem syncRelationNodes_eq (cfg : SyncConfig) (st : M2AStore) (doc : List RelNode)
    {o : PassOut}
    (h : syncInsertedNodes cfg (syncRemovedNodes cfg st doc).1 [] doc = .ok o) :
    syncRelationNodes cfg st doc
      = .ok ⟨o.store, o.doc, o.memory,
             removeRelatedItems cfg (syncRemovedNodes cfg st doc).2 ++ o.relCalls,
             (syncRemovedNodes cfg st doc).2.map StoreCall.deactivate ++ o.storeCalls⟩ := by
  rw [show syncRelationNodes cfg st doc
        = (match syncInsertedNodes cfg (syncRemovedNodes cfg st doc).1 [] doc with
           | .error e => .error e
           | .ok o =>
               .ok ⟨o.store, o.doc, o.memory,
                    removeRelatedItems cfg (syncRemovedNodes cfg st doc).2 ++ o.relCalls,
                    (syncRemovedNodes cfg st doc).2.map StoreCall.deactivate ++ o.storeCalls⟩)
        from rfl]
  rw [h]

theorem syncRelationNodes_inv (cfg : SyncConfig) (st : M2AStore) (doc : List RelNode)
    {o : PassOut} (h : syncRelationNodes cfg st doc = .ok o) :
    ∃ oi, syncInsertedNodes cfg (syncRemovedNodes cfg st doc).1 [] doc = .ok oi ∧
      o = ⟨oi.store, oi.doc, oi.memory,
           removeRelatedItems cfg (syncRemovedNodes cfg st doc).2 ++ oi.relCalls,
           (syncRemovedNodes cfg st doc).2.map StoreCall.deactivate ++ oi.storeCalls⟩ := by
  rw [show syncRelationNodes cfg st doc
        = (match syncInsertedNodes cfg (syncRemovedNodes cfg st doc).1 [] doc with
           | .error e => .error e
           | .ok o =>
               .ok ⟨o.store, o.doc, o.memory,
                    removeRelatedItems cfg (syncRemovedNodes cfg st doc).2 ++ o.relCalls,
                    (syncRemovedNodes cfg st doc).2.map StoreCall.deactivate ++ o.storeCalls⟩)
        from rfl] at h
  cases h1 : syncInsertedNodes cfg (syncRemovedNodes cfg st doc).1 [] doc with
  | error e =>
      simp only [h1] at h
      exact absurd h (by simp)
  | ok oi =>
      simp only [h1] at h
      refine ⟨oi, rfl, ?_⟩
      injection h with h
      exact h.symm

theorem finishStep_ok (cfg : SyncConfig) (store : M2AStore) (node : RelNode)
    (memory : List UUID) (sc : List StoreCall) (r : Bool)
    (h : (store.getItem node.id).isSome = true) :
    ∃ o, finishStep cfg store node memory sc r = .ok o := by
  obtain ⟨it, hit⟩ := Option.isSome_iff_exists.mp h
  cases r with
  | false => exact ⟨_, finishStep_create cfg store node memory sc hit⟩
  | true =>
      by_cases hnew : it.isNew = true
      · exact ⟨_, finishStep_react_new cfg store node memory sc hit hnew⟩
      · have hnf : it.isNew = false := Bool.not_eq_true _ ▸ (by simpa using hnew)
        cases hed : it.edits with
        | none => exact ⟨_, finishStep_react_noedits cfg store node memory sc hit hnf hed⟩
        | some e => exact ⟨_, finishStep_react_edits cfg store node memory sc hit hnf hed⟩

theorem dup_find_new_isSome (s : M2AStore) {origId : UUID} {orig : M2AStoreItem}
    (h : s.find origId = some orig) :
    ((s.duplicateItem origId).1.find s.nextId).isSome = true := by
  unfold M2AStore.find
  rw [M2AStore.dup_items s h, List.find?_append]
  cases hf : s.items.find? (fun it => it.id == s.nextId) with
  | some it => simp
  | none => simp

theorem step_ok (cfg : SyncConfig) (st : M2AStore) (mem : List UUID) (node : RelNode) :
    ∃ o, syncNodeStep cfg st mem node = .ok o := by
  by_cases hex : st.itemExists node.id = true
  · obtain ⟨orig, hfind⟩ := M2AStore.itemExists_iff.mp hex
    unfold syncNodeStep
    rw [hex]
    simp only [Bool.not_true, Bool.false_eq_true, if_false]
    by_cases hc1 : (st.itemIsActive node.id && (nodeIdUniqueInEditor mem node.id).1
        && !st.itemFromDifferentEditor node.id cfg.editorField) = true
    · rw [if_pos hc1]
      exact ⟨_, rfl⟩
    · rw [if_neg hc1]
      by_cases hc2 : st.itemIsActive node.id = true
      · rw [if_pos hc2]
        apply finishStep_ok
        by_cases hd : st.itemFromDifferentEditor node.id cfg.editorField = true
        · rw [if_pos hd]
          show (((st.duplicateItem node.id).1.setField (st.duplicateItem node.id).2
              cfg.editorField).find (st.duplicateItem node.id).2).isSome = true
          rw [M2AStore.dup_snd]
          unfold M2AStore.setField
          rw [M2AStore.modify_find_self _ _ (fun it => { it with field := cfg.editorField })
            (fun it => rfl)]
          rw [Option.isSome_map']
          exact dup_find_new_isSome st hfind
        · rw [if_neg hd]
          show (((st.duplicateItem node.id).1).find (st.duplicateItem node.id).2).isSome = true
          rw [M2AStore.dup_snd]
          exact dup_find_new_isSome st hfind
      · rw [if_neg hc2]
        apply finishStep_ok
        by_cases hd : st.itemFromDifferentEditor node.id cfg.editorField = true
        · rw [if_pos hd]
          show (((st.activateItem node.id).setField node.id cfg.editorField).find
              node.id).isSome = true
          rw [show (st.activateItem node.id).setField node.id cfg.editorField
                = activationBase cfg st node.id from (by unfold activationBase; rw [if_pos hd])]
          rw [activationBase_find_self cfg st hfind]
          rfl
        · rw [if_neg hd]
          show ((st.activateItem node.id).find node.id).isSome = true
          rw [M2AStore.activate_find_self hfind]
          rfl
  · have hexf : st.itemExists node.id = false := Bool.not_eq_true _ ▸ (by simpa using hex)
    exact ⟨_, step_orphan cfg st mem node hexf⟩

theorem insertion_ok (cfg : SyncConfig) :
    ∀ (doc : List RelNode) (st : M2AStore) (mem : List UUID),
      ∃ o, syncInsertedNodes cfg st mem doc = .ok o
  | [], st, mem => ⟨_, rfl⟩
  | n :: ns, st, mem => by
      obtain ⟨o1, h1⟩ := step_ok cfg st mem n
      obtain ⟨rest, h2⟩ := insertion_ok cfg ns o1.store o1.memory
      exact ⟨_, syncInsertedNodes_cons_ok cfg st mem n ns h1 h2⟩

theorem syncRelationNodes_ok (cfg : SyncConfig) (st : M2AStore) (doc : List RelNode) :
    ∃ o, syncRelationNodes cfg st doc = .ok o := by
  obtain ⟨oi, h⟩ := insertion_ok cfg doc (syncRemovedNodes cfg st doc).1 []
  exact ⟨_, syncRelationNodes_eq cfg st doc h⟩

/-! ### Claim-level theorems (step-level claims) -/

/-- C3: duplicate case.  For every node whose store item is active but
which is a repeat occurrence of an identity already seen in this pass or
is owned by a different editor field, the pass requests a fresh identity
via `duplicateItem` (copying the original item's data), patches that
node's identity attribute in place to the new identity, replaces the
last entry of the identity memory with the new identity, and issues a
create call for the duplicate's data; no update or remove call is made
for the duplicate. -/
theorem duplicate_case_forks_identity (cfg : SyncConfig) (store : M2AStore)
    (memory : List UUID) (node : RelNode) {orig : M2AStoreItem}
    (hfind : store.find node.id = some orig) (ha : orig.active = true)
    (hb : ∀ it ∈ store.items, it.id < store.nextId)
    (hfail : memory.contains node.id = true
      ∨ store.itemFromDifferentEditor node.id cfg.editorField = true) :
    ∃ o, syncNodeStep cfg store memory node = .ok o ∧
      o.node = { node with id := store.nextId } ∧
      (∀ it ∈ store.items, it.id ≠ store.nextId) ∧
      o.memory = replaceLastItem (memory ++ [node.id]) store.nextId ∧
      StoreCall.duplicateItem node.id store.nextId ∈ o.storeCalls ∧
      o.relCalls = [RelCall.create orig.item] := by
  refine ⟨_, step_dup cfg store memory node hfind ha hb hfail, rfl, ?_, ?_, ?_, rfl⟩
  · intro it hit
    exact Nat.ne_of_lt (hb it hit)
  · unfold replaceLastItem
    rw [List.dropLast_concat]
  · by_cases hd : store.itemFromDifferentEditor node.id cfg.editorField = true
    · simp [hd]
    · have hdf : store.itemFromDifferentEditor node.id cfg.editorField = false :=
        Bool.not_eq_true _ ▸ (by simpa using hd)
      simp [hdf]

/-- Witness for C3 at a concrete input: a second occurrence of identity 1
in the same editor field. -/
theorem duplicate_case_forks_identity_witness :
    ∃ o, syncNodeStep ⟨⟨[]⟩, some "f"⟩
        ⟨[⟨1, true, false, some "f", none, [("k", some (Lit.num 7))]⟩], 2⟩
        [1] ⟨1, []⟩ = .ok o ∧
      o.node = (⟨2, []⟩ : RelNode) ∧
      o.memory = [1, 2] ∧
      StoreCall.duplicateItem 1 2 ∈ o.storeCalls ∧
      o.relCalls = [RelCall.create [("k", some (Lit.num 7))]] := by
  obtain ⟨o, h1, h2, h3, h4, h5, h6⟩ := duplicate_case_forks_identity ⟨⟨[]⟩, some "f"⟩
    ⟨[⟨1, true, false, some "f", none, [("k", some (Lit.num 7))]⟩], 2⟩ [1] ⟨1, []⟩
    rfl rfl (by decide) (Or.inl (by decide))
  exact ⟨o, h1, h2, by rw [h4]; rfl, h5, h6⟩

/-- C9: implicit frame effect of the cross-field duplicate: `setField` is
invoked with the freshly minted duplicate identity, never with the
original identity, and the original identity's store item is left
entirely unchanged by the processing of that node. -/
theorem cross_field_duplicate_targets_new_id (cfg : SyncConfig) (store : M2AStore)
    (memory : List UUID) (node : RelNode) {orig : M2AStoreItem}
    (hfind : store.find node.id = some orig) (ha : orig.active = true)
    (hb : ∀ it ∈ store.items, it.id < store.nextId)
    (hd : store.itemFromDifferentEditor node.id cfg.editorField = true) :
    ∃ o, syncNodeStep cfg store memory node = .ok o ∧
      o.storeCalls = [StoreCall.duplicateItem node.id store.nextId,
                      StoreCall.setField store.nextId cfg.editorField] ∧
      node.id ≠ store.nextId ∧
      (∀ f, StoreCall.setField node.id f ∉ o.storeCalls) ∧
      o.store.find node.id = some orig := by
  have hne : node.id ≠ store.nextId := by
    have h1 : orig.id = node.id := M2AStore.find_eq_id hfind
    have h2 := hb orig (M2AStore.find_mem hfind)
    rw [h1] at h2
    exact Nat.ne_of_lt h2
  refine ⟨_, step_dup cfg store memory node hfind ha hb (Or.inr hd), ?_, hne, ?_, ?_⟩
  · simp [hd]
  · intro f hmem
    simp only [hd, if_true, List.mem_cons, List.mem_singleton] at hmem
    rcases hmem with h | h | h
    · exact StoreCall.noConfusion h
    · injection h with h1 h2
      exact hne h1
    · exact (List.not_mem_nil _ h)
  · exact (duplicationBase_find_other cfg store hfind node.id hne).trans hfind

end FlexibleEditor

namespace FlexibleEditor

/-- Witness for C9 at a concrete input: identity 1 owned by field g,
synced from field f. -/
theorem cross_field_duplicate_targets_new_id_witness :
    ∃ o, syncNodeStep ⟨⟨[]⟩, some "f"⟩
        ⟨[⟨1, true, true, some "g", none, []⟩], 2⟩ [] ⟨1, []⟩ = .ok o ∧
      o.storeCalls = [StoreCall.duplicateItem 1 2, StoreCall.setField 2 (some "f")] ∧
      o.store.find 1 = some ⟨1, true, true, some "g", none, []⟩ := by
  obtain ⟨o, h1, h2, h3, h4, h5⟩ := cross_field_duplicate_targets_new_id ⟨⟨[]⟩, some "f"⟩
    ⟨[⟨1, true, true, some "g", none, []⟩], 2⟩ [] ⟨1, []⟩ rfl rfl (by decide) (by decide)
  exact ⟨o, h1, h2, h5⟩

/-- C4: reactivation merge.  For a node whose store item is not new and
was inactive at the start of its processing, carrying pending edits
with field a mapped to 1, while the display item for its identity
reports a type tag X and index 2, the pass issues a remove (undelete)
call on the display item, then exactly one update call whose edits are
observationally equal to the merge of the pending edits with the
display fields, and no create call; processing of the node stops
there. -/
theorem reactivation_merge_update (cfg : SyncConfig) (store : M2AStore)
    (memory : List UUID) (node : RelNode) {orig : M2AStoreItem}
    (hfind : store.find node.id = some orig) (ha : orig.active = false)
    (hnew : orig.isNew = false)
    (hed : orig.edits = some [("a", some (Lit.num 1))])
    (hdisp : cfg.m2aRelation.findDisplayItem node.id
      = some [("$type", some (Lit.str "X")), ("$index", some (Lit.num 2))]) :
    ∃ o, syncNodeStep cfg store memory node = .ok o ∧
      o.relCalls
        = [RelCall.remove (some [("$type", some (Lit.str "X")), ("$index", some (Lit.num 2))]),
           RelCall.update [("a", some (Lit.num 1)), ("$type", some (Lit.str "X")),
                           ("$index", some (Lit.num 2)), ("$edits", none)]] ∧
      jsEquiv [("a", some (Lit.num 1)), ("$type", some (Lit.str "X")),
               ("$index", some (Lit.num 2)), ("$edits", none)]
              [("a", some (Lit.num 1)), ("$type", some (Lit.str "X")),
               ("$index", some (Lit.num 2))] = true := by
  have hmerge : mergeUpdatedValues cfg.m2aRelation [("a", some (Lit.num 1))] node.id
      = [("a", some (Lit.num 1)), ("$type", some (Lit.str "X")),
         ("$index", some (Lit.num 2)), ("$edits", none)] := by
    unfold mergeUpdatedValues
    rw [hdisp]
    rfl
  refine ⟨_, step_act_old_edits cfg store memory node hfind ha hnew hed, ?_, by decide⟩
  show [RelCall.remove (cfg.m2aRelation.findDisplayItem node.id),
        RelCall.update (mergeUpdatedValues cfg.m2aRelation [("a", some (Lit.num 1))] node.id)]
      = _
  rw [hdisp, hmerge]

/-- Witness for C4 at a concrete input. -/
theorem reactivation_merge_update_witness :
    ∃ o, syncNodeStep
        ⟨⟨[(1, [("$type", some (Lit.str "X")), ("$index", some (Lit.num 2))])]⟩, some "f"⟩
        ⟨[⟨1, false, false, some "f", some [("a", some (Lit.num 1))], []⟩], 2⟩
        [] ⟨1, []⟩ = .ok o ∧
      o.relCalls
        = [RelCall.remove (some [("$type", some (Lit.str "X")), ("$index", some (Lit.num 2))]),
           RelCall.update [("a", some (Lit.num 1)), ("$type", some (Lit.str "X")),
                           ("$index", some (Lit.num 2)), ("$edits", none)]] := by
  obtain ⟨o, h1, h2, h3⟩ := reactivation_merge_update
    ⟨⟨[(1, [("$type", some (Lit.str "X")), ("$index", some (Lit.num 2))])]⟩, some "f"⟩
    ⟨[⟨1, false, false, some "f", some [("a", some (Lit.num 1))], []⟩], 2⟩
    [] ⟨1, []⟩ rfl rfl rfl rfl (by decide)
  exact ⟨o, h1, h2⟩

/-- C10: implicit error-handling of the merge step: for a reactivated,
not-new store item carrying pending edits, when the display-item lookup
returns nothing the pending edits are left exactly as they were, and an
update call is still issued with those unmerged edits (preceded by the
remove call that received the absent lookup result). -/
theorem reactivation_update_unmerged_when_display_missing (cfg : SyncConfig)
    (store : M2AStore) (memory : List UUID) (node : RelNode)
    {orig : M2AStoreItem} {e : JsObj}
    (hfind : store.find node.id = some orig) (ha : orig.active = false)
    (hnew : orig.isNew = false) (hed : orig.edits = some e)
    (hdisp : cfg.m2aRelation.findDisplayItem node.id = none) :
    ∃ o, syncNodeStep cfg store memory node = .ok o ∧
      o.relCalls = [RelCall.remove none, RelCall.update e] ∧
      (∃ it2, o.store.find node.id = some it2 ∧ it2.edits = some e) := by
  have hmerge : mergeUpdatedValues cfg.m2aRelation e node.id = e := by
    unfold mergeUpdatedValues
    rw [hdisp]
  refine ⟨_, step_act_old_edits cfg store memory node hfind ha hnew hed, ?_, ?_⟩
  · show [RelCall.remove (cfg.m2aRelation.findDisplayItem node.id),
          RelCall.update (mergeUpdatedValues cfg.m2aRelation e node.id)] = _
    rw [hdisp, hmerge]
  · show ∃ it2, ((activationBase cfg store node.id).setEdits node.id
        (some (mergeUpdatedValues cfg.m2aRelation e node.id))).find node.id
        = some it2 ∧ it2.edits = some e
    rw [hmerge]
    rw [M2AStore.setEdits_find_self (some e) (activationBase_find_self cfg store hfind)]
    exact ⟨_, rfl, rfl⟩

/-- Witness for C10 at a concrete input. -/
theorem reactivation_update_unmerged_when_display_missing_witness :
    ∃ o, syncNodeStep ⟨⟨[]⟩, some "f"⟩
        ⟨[⟨1, false, false, some "f", some [("a", some (Lit.num 1))], []⟩], 2⟩
        [] ⟨1, []⟩ = .ok o ∧
      o.relCalls = [RelCall.remove none, RelCall.update [("a", some (Lit.num 1))]] := by
  obtain ⟨o, h1, h2, h3⟩ := reactivation_update_unmerged_when_display_missing
    ⟨⟨[]⟩, some "f"⟩
    ⟨[⟨1, false, false, some "f", some [("a", some (Lit.num 1))], []⟩], 2⟩
    [] ⟨1, []⟩ rfl rfl rfl rfl rfl
  exact ⟨o, h1, h2⟩

end FlexibleEditor

namespace FlexibleEditor

/-- C7: orphan skip.  A reference node whose identity has no store item
is skipped entirely by the per-node step; and, assuming no identity was
previously active for this field, a whole pass over a document holding
only that node performs no store mutation and no collection call and
leaves both document and store unchanged. -/
theorem orphan_node_skipped (cfg : SyncConfig) (st : M2AStore) (mem : List UUID)
    (node : RelNode) (hex : st.itemExists node.id = false)
    (hnoact : ∀ it ∈ st.items, it.field = cfg.editorField → it.active = false) :
    syncNodeStep cfg st mem node = .ok ⟨st, node, mem, [], []⟩ ∧
    syncRelationNodes cfg st [node] = .ok ⟨st, [node], [], [], []⟩ := by
  refine ⟨step_orphan cfg st mem node hex, ?_⟩
  have hdeact : st.deactivateUnusedItems [node.id] cfg.editorField = (st, []) := by
    apply M2AStore.deact_noop
    intro it hit
    unfold M2AStore.unusedHere
    by_cases hf : it.field = cfg.editorField
    · rw [hnoact it hit hf]
      rfl
    · have hbf : (it.field == cfg.editorField) = false := by
        simp [hf]
      simp [hbf]
  have hrem : syncRemovedNodes cfg st [node] = (st, []) := by
    unfold syncRemovedNodes
    simpa using hdeact
  have hins : syncInsertedNodes cfg st [] [node] = .ok ⟨st, [node], [], [], []⟩ := by
    rw [syncInsertedNodes_cons_ok cfg st [] node [] (step_orphan cfg st [] node hex)
      (syncInsertedNodes_nil cfg st [])]
    rfl
  have hpass := syncRelationNodes_eq cfg st [node] (by rw [hrem]; exact hins)
  rw [hrem] at hpass
  simpa [removeRelatedItems] using hpass

/-- Witness for C7 at a concrete input: a single node with identity 5
absent from a store holding one inactive item. -/
theorem orphan_node_skipped_witness :
    syncNodeStep ⟨⟨[]⟩, some "f"⟩ ⟨[⟨1, false, false, some "f", none, []⟩], 2⟩ [] ⟨5, []⟩
      = .ok ⟨⟨[⟨1, false, false, some "f", none, []⟩], 2⟩, ⟨5, []⟩, [], [], []⟩ ∧
    syncRelationNodes ⟨⟨[]⟩, some "f"⟩ ⟨[⟨1, false, false, some "f", none, []⟩], 2⟩ [⟨5, []⟩]
      = .ok ⟨⟨[⟨1, false, false, some "f", none, []⟩], 2⟩, [⟨5, []⟩], [], [], []⟩ :=
  orphan_node_skipped ⟨⟨[]⟩, some "f"⟩ ⟨[⟨1, false, false, some "f", none, []⟩], 2⟩ [] ⟨5, []⟩
    (by decide) (by decide)

/-- C5: removal reconciliation calls.  The delete calls of the removal
phase are exactly one deleteItem per deactivated identity whose display
item is found; identities with a missing display item are silently
skipped, and an empty list of deactivated identities yields no
collection call at all. -/
theorem removal_reconciliation_calls (cfg : SyncConfig) (st : M2AStore) (doc : List RelNode) :
    removeRelatedItems cfg (syncRemovedNodes cfg st doc).2
      = (syncRemovedNodes cfg st doc).2.filterMap
          (fun id => (cfg.m2aRelation.findDisplayItem id).map RelCall.deleteItem) ∧
    (∀ id it, id ∈ (syncRemovedNodes cfg st doc).2 →
      cfg.m2aRelation.findDisplayItem id = some it →
      RelCall.deleteItem it ∈ removeRelatedItems cfg (syncRemovedNodes cfg st doc).2) ∧
    ((syncRemovedNodes cfg st doc).2 = []
      → removeRelatedItems cfg (syncRemovedNodes cfg st doc).2 = []) := by
  have h1 : ∀ ids : List UUID, removeRelatedItems cfg ids
      = ids.filterMap (fun id => (cfg.m2aRelation.findDisplayItem id).map RelCall.deleteItem) := by
    intro ids
    unfold removeRelatedItems
    cases ids with
    | nil => rfl
    | cons a as => rfl
  refine ⟨h1 _, ?_, ?_⟩
  · intro id it hmem hfindd
    rw [h1]
    rw [List.mem_filterMap]
    exact ⟨id, hmem, by rw [hfindd]; rfl⟩
  · intro h
    rw [h, h1]
    rfl

/-- Witness for C5 at a concrete input: identities 1 and 3 are
deactivated; only identity 1 has a display item, so exactly its delete
call is issued. -/
theorem removal_reconciliation_calls_witness :
    RelCall.deleteItem [("$type", some (Lit.str "X"))]
      ∈ removeRelatedItems ⟨⟨[(1, [("$type", some (Lit.str "X"))])]⟩, some "f"⟩
          (syncRemovedNodes ⟨⟨[(1, [("$type", some (Lit.str "X"))])]⟩, some "f"⟩
            ⟨[⟨1, true, false, some "f", none, []⟩, ⟨3, true, false, some "f", none, []⟩], 4⟩
            []).2 :=
  (removal_reconciliation_calls ⟨⟨[(1, [("$type", some (Lit.str "X"))])]⟩, some "f"⟩
      ⟨[⟨1, true, false, some "f", none, []⟩, ⟨3, true, false, some "f", none, []⟩], 4⟩
      []).2.1 1 [("$type", some (Lit.str "X"))] (by decide) (by decide)

/-- C8 counterexample: at the empty memory and identity 0, the
check-and-record operation returns true although the identity was not
already seen — refuting the claim that the returned boolean says
whether the identity was already seen. -/
theorem unique_check_not_already_seen :
    (nodeIdUniqueInEditor [] 0).1 = true ∧ (([] : List UUID).contains 0) = false ∧
    (nodeIdUniqueInEditor [] 0).1 ≠ (([] : List UUID).contains 0) := by
  decide

/-- C8 amended: the check-and-record operation returns whether the
identity was NOT already seen (true exactly when it is unique so far),
then appends it; replace-last replaces exactly the most recently
recorded identity, leaving all earlier entries unchanged. -/
theorem node_id_memory_ops (m ms : List UUID) (last y x : UUID) :
    ((nodeIdUniqueInEditor m x).1 = true ↔ x ∉ m) ∧
    (nodeIdUniqueInEditor m x).2 = m ++ [x] ∧
    replaceLastItem (ms ++ [last]) y = ms ++ [y] := by
  refine ⟨?_, rfl, ?_⟩
  · unfold nodeIdUniqueInEditor
    simp
  · unfold replaceLastItem
    rw [List.dropLast_concat]

/-- C6 counterexample: reactivating a not-new item whose display item is
missing does not treat the missing lookup as a guarded no-op: the
unchecked lookup result is forwarded to a remove call (the source's
`m2aRelation.remove(findDisplayItem(nodeId)!)`). -/
theorem missing_display_reactivation_emits_remove :
    (RelationRef.mk []).findDisplayItem 1 = none ∧
    syncRelationNodes ⟨⟨[]⟩, some "f"⟩
        ⟨[⟨1, false, false, some "f", none, []⟩], 2⟩ [⟨1, []⟩]
      = .ok ⟨⟨[⟨1, true, false, some "f", none, []⟩], 2⟩, [⟨1, []⟩], [1],
             [RelCall.remove none], [StoreCall.activateItem 1]⟩ := by
  exact ⟨rfl, rfl⟩

/-- C6 amended: the synchronization pass never raises on any input —
missing store entries, missing display items and empty removal lists
never lead to an error result; however, a missing display item during
reactivation is passed unguarded to the collection's remove call
rather than being skipped. -/
theorem sync_pass_never_throws (cfg : SyncConfig) (st : M2AStore) (doc : List RelNode) :
    ∃ o, syncRelationNodes cfg st doc = .ok o :=
  syncRelationNodes_ok cfg st doc

end FlexibleEditor

namespace FlexibleEditor

/-! ### Helpers for the insertion-phase induction -/

theorem mem_nodup_find (s : M2AStore) (hnd : (s.items.map (·.id)).Nodup)
    {it : M2AStoreItem} (hit : it ∈ s.items) : s.find it.id = some it := by
  unfold M2AStore.find
  rcases s with ⟨items, nextId⟩
  simp only at hit hnd ⊢
  induction items with
  | nil => cases hit
  | cons a rest ih =>
      rcases List.mem_cons.mp hit with h | h
      · subst h
        exact List.find?_cons_of_pos rest (by simp)
      · have hne : a.id ≠ it.id := by
          intro heq
          have : it.id ∈ rest.map (·.id) := List.mem_map_of_mem _ h
          rw [List.map_cons] at hnd
          exact (List.nodup_cons.mp hnd).1 (heq ▸ this)
        rw [List.find?_cons_of_neg _ (by simp [hne])]
        exact ih (by rw [List.map_cons] at hnd; exact (List.nodup_cons.mp hnd).2) h

theorem itemFromDifferentEditor_congr {s1 s2 : M2AStore} {x : UUID}
    (h : s1.find x = s2.find x) (F : EField) :
    s1.itemFromDifferentEditor x F = s2.itemFromDifferentEditor x F := by
  unfold M2AStore.itemFromDifferentEditor
  rw [h]

theorem itemExists_congr {s1 s2 : M2AStore} {x : UUID}
    (h : s1.find x = s2.find x) :
    s1.itemExists x = s2.itemExists x := by
  unfold M2AStore.itemExists
  rw [h]

theorem diff_false_field {s : M2AStore} {x : UUID} {F : EField} {orig : M2AStoreItem}
    (hfind : s.find x = some orig)
    (hd : s.itemFromDifferentEditor x F = false) : orig.field = F := by
  unfold M2AStore.itemFromDifferentEditor at hd
  rw [hfind] at hd
  simpa using hd

theorem diff_true_field {s : M2AStore} {x : UUID} {F : EField} {orig : M2AStoreItem}
    (hfind : s.find x = some orig)
    (hd : s.itemFromDifferentEditor x F = true) : orig.field ≠ F := by
  unfold M2AStore.itemFromDifferentEditor at hd
  rw [hfind] at hd
  simpa using hd

/-- The two possible store shapes after the reactivation branch of the
per-node step: the activation base, optionally with merged edits
written back. -/
def ActShape (cfg : SyncConfig) (st : M2AStore) (id : UUID) (st2 : M2AStore) : Prop :=
  st2 = activationBase cfg st id
    ∨ ∃ e, st2 = (activationBase cfg st id).setEdits id (some e)

theorem ActShape.find_other {cfg : SyncConfig} {st : M2AStore} {id : UUID}
    {st2 : M2AStore} (h : ActShape cfg st id st2) (x : UUID) (hx : x ≠ id) :
    st2.find x = st.find x := by
  rcases h with h | ⟨e, h⟩
  · rw [h, activationBase_find_other cfg st id x hx]
  · rw [h, M2AStore.setEdits_find_other _ _ _ x hx, activationBase_find_other cfg st id x hx]

theorem ActShape.find_self {cfg : SyncConfig} {st : M2AStore} {id : UUID}
    {st2 : M2AStore} {orig : M2AStoreItem} (h : ActShape cfg st id st2)
    (hfind : st.find id = some orig) :
    ∃ it2, st2.find id = some it2 ∧ it2.id = orig.id ∧ it2.active = true ∧
      it2.isNew = orig.isNew ∧ it2.item = orig.item ∧
      it2.field = (if st.itemFromDifferentEditor id cfg.editorField = true
                   then cfg.editorField else orig.field) := by
  rcases h with h | ⟨e, h⟩
  · subst h
    rw [activationBase_find_self cfg st hfind]
    exact ⟨_, rfl, rfl, rfl, rfl, rfl, rfl⟩
  · subst h
    rw [M2AStore.setEdits_find_self (some e) (activationBase_find_self cfg st hfind)]
    exact ⟨_, rfl, rfl, rfl, rfl, rfl, rfl⟩

theorem ActShape.nextId_eq {cfg : SyncConfig} {st : M2AStore} {id : UUID}
    {st2 : M2AStore} (h : ActShape cfg st id st2) : st2.nextId = st.nextId := by
  rcases h with h | ⟨e, h⟩
  · rw [h, activationBase_nextId]
  · rw [h]
    show (M2AStore.modifyItem _ _ _).nextId = st.nextId
    rw [M2AStore.modify_nextId, activationBase_nextId]

theorem ActShape.ids_eq {cfg : SyncConfig} {st : M2AStore} {id : UUID}
    {st2 : M2AStore} (h : ActShape cfg st id st2) :
    st2.items.map (·.id) = st.items.map (·.id) := by
  rcases h with h | ⟨e, h⟩
  · rw [h, activationBase_ids]
  · rw [h, M2AStore.setEdits_ids, activationBase_ids]

theorem ActShape.exists_eq {cfg : SyncConfig} {st : M2AStore} {id : UUID}
    {st2 : M2AStore} {orig : M2AStoreItem} (h : ActShape cfg st id st2)
    (hfind : st.find id = some orig) (x : UUID) :
    st2.itemExists x = st.itemExists x := by
  by_cases hx : x = id
  · subst hx
    obtain ⟨it2, hit2, _⟩ := h.find_self hfind
    unfold M2AStore.itemExists
    rw [hit2, hfind]
    rfl
  · exact itemExists_congr (h.find_other x hx)

theorem ActShape.wf {cfg : SyncConfig} {st : M2AStore} {id : UUID}
    {st2 : M2AStore} (h : ActShape cfg st id st2) (hwf : storeWF st) : storeWF st2 := by
  obtain ⟨hb, hnd⟩ := hwf
  constructor
  · intro it1 hit1
    have : it1.id ∈ st2.items.map (·.id) := List.mem_map_of_mem _ hit1
    rw [h.ids_eq] at this
    obtain ⟨it0, hit0, heq⟩ := List.mem_map.mp this
    rw [h.nextId_eq, ← heq]
    exact hb it0 hit0
  · rw [h.ids_eq]
    exact hnd

theorem duplicationBase_wf (cfg : SyncConfig) (st : M2AStore) {id : UUID}
    {orig : M2AStoreItem} (hfind : st.find id = some orig) (hwf : storeWF st) :
    storeWF (duplicationBase cfg st id) := by
  obtain ⟨hb, hnd⟩ := hwf
  constructor
  · intro it1 hit1
    have : it1.id ∈ (duplicationBase cfg st id).items.map (·.id) :=
      List.mem_map_of_mem _ hit1
    rw [duplicationBase_ids cfg st hfind] at this
    rw [duplicationBase_nextId]
    rcases List.mem_append.mp this with h | h
    · obtain ⟨it0, hit0, heq⟩ := List.mem_map.mp h
      rw [← heq]
      exact Nat.lt_succ_of_lt (hb it0 hit0)
    · rw [List.mem_singleton.mp h]
      exact Nat.lt_succ_self _
  · rw [duplicationBase_ids cfg st hfind]
    rw [List.nodup_append]
    refine ⟨hnd, List.nodup_singleton _, ?_⟩
    intro a ha hb2
    rw [List.mem_singleton.mp hb2] at ha
    obtain ⟨it0, hit0, heq⟩ := List.mem_map.mp ha
    exact absurd heq (Nat.ne_of_lt (hb it0 hit0))

end FlexibleEditor

namespace FlexibleEditor

/-- Entry-state preconditions of one insertion-phase run: well-formed
store, all identities below the fresh counter, memory entries covered
and seen-active, and every active item owned by this field accounted
for by the document or the ghost list `covered`. -/
structure MasterPre (cfg : SyncConfig) (doc : List RelNode) (st : M2AStore)
    (mem covered : List UUID) : Prop where
  wf : storeWF st
  docB : ∀ n ∈ doc, n.id < st.nextId
  memB : ∀ x ∈ mem, x < st.nextId
  memCov : ∀ x ∈ mem, x ∈ covered
  act : ∀ it ∈ st.items, it.active = true → it.field = cfg.editorField →
      it.id ∈ doc.map (·.id) ∨ it.id ∈ covered
  seen : ∀ x ∈ mem, ∃ it, st.find x = some it ∧ it.active = true

/-- Post-state facts of one insertion-phase run, relative to its entry
state. -/
structure MasterPost (cfg : SyncConfig) (doc : List RelNode) (st : M2AStore)
    (mem covered : List UUID) (o : PassOut) : Prop where
  wf : storeWF o.store
  nextLe : st.nextId ≤ o.store.nextId
  docBounds : ∀ m ∈ o.doc, m.id < o.store.nextId
  docIds : ∀ m ∈ o.doc, m.id ∈ doc.map (·.id) ∨ st.nextId ≤ m.id
  activeOwned : ∀ m ∈ o.doc, ∀ it, o.store.find m.id = some it →
      it.active = true ∧ it.field = cfg.editorField
  pairSep : List.Pairwise (fun a b : RelNode => a.id = b.id
      → o.store.itemExists a.id = false) o.doc
  coverage : ∀ it ∈ o.store.items, it.active = true → it.field = cfg.editorField →
      it.id ∈ o.doc.map (·.id) ∨ it.id ∈ covered
  pres : ∀ x it, st.find x = some it → ∃ it2, o.store.find x = some it2 ∧
      it2.id = it.id ∧ it2.isNew = it.isNew ∧ it2.item = it.item ∧
      (it.active = true → it2.active = true) ∧
      (it2.field = it.field ∨ it2.field = cfg.editorField)
  existsLow : ∀ x, x < st.nextId → o.store.itemExists x = st.itemExists x
  docEx : (∀ n ∈ doc, st.itemExists n.id = true) →
      ∀ m ∈ o.doc, o.store.itemExists m.id = true
  memAway : ∀ x ∈ mem, (∃ it, st.find x = some it ∧ it.active = true) →
      x ∉ o.doc.map (·.id)
  len : o.doc.length = doc.length
  keeps : ∀ (i : Nat) (x y : RelNode), doc[i]? = some x → o.doc[i]? = some y →
      x.id ∉ mem →
      (∀ (j : Nat) (z : RelNode), j < i → doc[j]? = some z → z.id ≠ x.id) →
      st.itemFromDifferentEditor x.id cfg.editorField = false →
      y.id = x.id
  minted : ∀ (i : Nat) (x y : RelNode), doc[i]? = some x → o.doc[i]? = some y →
      st.itemExists x.id = true →
      (x.id ∈ mem
        ∨ (∃ it, st.find x.id = some it ∧ it.active = true
            ∧ it.field ≠ cfg.editorField)
        ∨ (∃ j z, j < i ∧ doc[j]? = some z ∧ z.id = x.id)) →
      st.nextId ≤ y.id

theorem go_master (cfg : SyncConfig) :
    ∀ (doc : List RelNode) (st : M2AStore) (mem covered : List UUID) (o : PassOut),
      syncInsertedNodes cfg st mem doc = .ok o →
      MasterPre cfg doc st mem covered →
      MasterPost cfg doc st mem covered o
  | [], st, mem, covered, o, h, pre => by
      rw [syncInsertedNodes_nil] at h
      injection h with h
      subst h
      exact {
        wf := pre.wf
        nextLe := Nat.le_refl _
        docBounds := by intro m hm; cases hm
        docIds := by intro m hm; cases hm
        activeOwned := by intro m hm; cases hm
        pairSep := List.Pairwise.nil
        coverage := by
          intro it hit ha hf
          rcases pre.act it hit ha hf with h | h
          · cases h
          · exact Or.inr h
        pres := by
          intro x it hx
          exact ⟨it, hx, rfl, rfl, rfl, fun h => h, Or.inl rfl⟩
        existsLow := by intro x _; rfl
        docEx := by intro _ m hm; cases hm
        memAway := by
          intro x hx _ hmem
          simp at hmem
        len := rfl
        keeps := by intro i x y hx; simp at hx
        minted := by intro i x y hx; simp at hx }
  | n :: ns, st, mem, covered, o, h, pre => by
      obtain ⟨o1, rest, h1, h2, ho⟩ := syncInsertedNodes_cons_inv cfg st mem n ns h
      subst ho
      by_cases hex : st.itemExists n.id = true
      · obtain ⟨orig, hfind⟩ := M2AStore.itemExists_iff.mp hex
        by_cases ha : orig.active = true
        · by_cases hnoop : mem.contains n.id = false
            ∧ st.itemFromDifferentEditor n.id cfg.editorField = false
          · -- NO-OP branch
            obtain ⟨hu, hd⟩ := hnoop
            rw [step_noop cfg st mem n hfind ha hu hd] at h1
            injection h1 with h1
            subst h1
            have hnin : n.id ∉ mem := by simpa using hu
            have pre' : MasterPre cfg ns st (mem ++ [n.id]) (covered ++ [n.id]) := {
              wf := pre.wf
              docB := fun m hm => pre.docB m (List.mem_cons_of_mem _ hm)
              memB := by
                intro x hx
                rcases List.mem_append.mp hx with hx1 | hx1
                · exact pre.memB x hx1
                · rw [List.mem_singleton.mp hx1]
                  exact pre.docB n (List.mem_cons_self _ _)
              memCov := by
                intro x hx
                rcases List.mem_append.mp hx with hx1 | hx1
                · exact List.mem_append_left _ (pre.memCov x hx1)
                · exact List.mem_append_right _ hx1
              act := by
                intro it hit hac hf
                rcases pre.act it hit hac hf with hmem | hcov
                · rw [List.map_cons] at hmem
                  rcases List.mem_cons.mp hmem with heq | hmem2
                  · exact Or.inr (List.mem_append_right _
                      (by rw [heq]; exact List.mem_singleton_self _))
                  · exact Or.inl hmem2
                · exact Or.inr (List.mem_append_left _ hcov)
              seen := by
                intro x hx
                rcases List.mem_append.mp hx with hx1 | hx1
                · exact pre.seen x hx1
                · rw [List.mem_singleton.mp hx1]
                  exact ⟨orig, hfind, ha⟩ }
            have MP := go_master cfg ns st (mem ++ [n.id]) (covered ++ [n.id]) rest h2 pre'
            have hnid_away : n.id ∉ rest.doc.map (·.id) := by
              apply MP.memAway n.id (List.mem_append_right _ (List.mem_singleton_self _))
              exact ⟨orig, hfind, ha⟩
            exact {
              wf := MP.wf
              nextLe := MP.nextLe
              docBounds := by
                intro m hm
                rcases List.mem_cons.mp hm with heq | hm2
                · rw [heq]
                  exact Nat.lt_of_lt_of_le (pre.docB n (List.mem_cons_self _ _)) MP.nextLe
                · exact MP.docBounds m hm2
              docIds := by
                intro m hm
                rcases List.mem_cons.mp hm with heq | hm2
                · subst heq
                  exact Or.inl (by rw [List.map_cons]; exact List.mem_cons_self _ _)
                · rcases MP.docIds m hm2 with hml | hmr
                  · exact Or.inl (by rw [List.map_cons]; exact List.mem_cons_of_mem _ hml)
                  · exact Or.inr hmr
              activeOwned := by
                intro m hm it hit
                rcases List.mem_cons.mp hm with heq | hm2
                · rw [heq] at hit
                  obtain ⟨it2, hit2, hid2, hnew2, hitem2, hact2, hf2⟩ := MP.pres n.id orig hfind
                  have heq2 : it = it2 := by
                    rw [hit2] at hit
                    exact (Option.some.inj hit).symm
                  subst heq2
                  refine ⟨hact2 ha, ?_⟩
                  rcases hf2 with hf2 | hf2
                  · rw [hf2]
                    exact diff_false_field hfind hd
                  · exact hf2
                · exact MP.activeOwned m hm2 it hit
              pairSep := by
                rw [List.pairwise_cons]
                refine ⟨?_, MP.pairSep⟩
                intro m hm heq
                exfalso
                apply hnid_away
                rw [heq]
                exact List.mem_map_of_mem _ hm
              coverage := by
                intro it hit hac hf
                rcases MP.coverage it hit hac hf with hml | hmr
                · exact Or.inl (by rw [List.map_cons]; exact List.mem_cons_of_mem _ hml)
                · rcases List.mem_append.mp hmr with hc | hc
                  · exact Or.inr hc
                  · refine Or.inl ?_
                    rw [List.mem_singleton.mp hc, List.map_cons]
                    exact List.mem_cons_self _ _
              pres := MP.pres
              existsLow := MP.existsLow
              docEx := by
                intro hall m hm
                rcases List.mem_cons.mp hm with heq | hm2
                · rw [heq]
                  obtain ⟨it2, hit2, _⟩ := MP.pres n.id orig hfind
                  unfold M2AStore.itemExists
                  rw [hit2]
                  rfl
                · exact MP.docEx (fun z hz => hall z (List.mem_cons_of_mem _ hz)) m hm2
              memAway := by
                intro x hx hex2
                have hrec := MP.memAway x (List.mem_append_left _ hx) hex2
                intro hmem
                rw [List.map_cons] at hmem
                rcases List.mem_cons.mp hmem with heq | hmem2
                · exact hnin (heq ▸ hx)
                · exact hrec hmem2
              len := by rw [List.length_cons, List.length_cons, MP.len]
              keeps := by
                intro i x y hxi hyi hxm hearlier hdiffx
                cases i with
                | zero =>
                    simp only [List.getElem?_cons_zero] at hxi hyi
                    injection hxi with hxi
                    injection hyi with hyi
                    subst hxi
                    subst hyi
                    rfl
                | succ i =>
                    simp only [List.getElem?_cons_succ] at hxi hyi
                    apply MP.keeps i x y hxi hyi
                    · intro hmem
                      rcases List.mem_append.mp hmem with hc | hc
                      · exact hxm hc
                      · have h0 := hearlier 0 n (Nat.succ_pos _)
                          (by simp only [List.getElem?_cons_zero])
                        exact h0 (List.mem_singleton.mp hc).symm
                    · intro j z hj hz
                      exact hearlier (j+1) z (Nat.succ_lt_succ hj)
                        (by simp only [List.getElem?_cons_succ]; exact hz)
                    · exact hdiffx
              minted := by
                intro i x y hxi hyi hexx hante
                cases i with
                | zero =>
                    simp only [List.getElem?_cons_zero] at hxi hyi
                    injection hxi with hxi
                    subst hxi
                    exfalso
                    rcases hante with hmem | ⟨it, hit, hac, hfne⟩ | ⟨j, z, hj, _, _⟩
                    · exact (by simpa using hu : n.id ∉ mem) hmem
                    · have heq2 : it = orig := by
                        rw [hfind] at hit
                        exact (Option.some.inj hit).symm
                      subst heq2
                      exact hfne (diff_false_field hfind hd)
                    · exact Nat.not_lt_zero j hj
                | succ i =>
                    simp only [List.getElem?_cons_succ] at hxi hyi
                    apply MP.minted i x y hxi hyi hexx
                    rcases hante with hmem | hdiffa | ⟨j, z, hj, hz, hzeq⟩
                    · exact Or.inl (List.mem_append_left _ hmem)
                    · exact Or.inr (Or.inl hdiffa)
                    · cases j with
                      | zero =>
                          simp only [List.getElem?_cons_zero] at hz
                          injection hz with hz
                          subst hz
                          exact Or.inl (List.mem_append_right _
                            (by rw [← hzeq]; exact List.mem_singleton_self _))
                      | succ j =>
                          simp only [List.getElem?_cons_succ] at hz
                          exact Or.inr (Or.inr ⟨j, z, Nat.lt_of_succ_lt_succ hj, hz, hzeq⟩) }
          · -- DUP branch
            have hfail : mem.contains n.id = true
                ∨ st.itemFromDifferentEditor n.id cfg.editorField = true := by
              by_cases hu : mem.contains n.id = true
              · exact Or.inl hu
              · by_cases hd : st.itemFromDifferentEditor n.id cfg.editorField = true
                · exact Or.inr hd
                · exact absurd ⟨Bool.not_eq_true _ ▸ (by simpa using hu),
                    Bool.not_eq_true _ ▸ (by simpa using hd)⟩ hnoop
            rw [step_dup cfg st mem n hfind ha pre.wf.1 hfail] at h1
            injection h1 with h1
            subst h1
            have hb := pre.wf.1
            have hnn : n.id ≠ st.nextId := by
              have h1b := hb orig (M2AStore.find_mem hfind)
              rw [M2AStore.find_eq_id hfind] at h1b
              exact Nat.ne_of_lt h1b
            have hfo : ∀ x, x ≠ st.nextId →
                (duplicationBase cfg st n.id).find x = st.find x :=
              fun x hx => duplicationBase_find_other cfg st hfind x hx
            have hwf1 : storeWF (duplicationBase cfg st n.id) :=
              duplicationBase_wf cfg st hfind pre.wf
            have hnext1 : (duplicationBase cfg st n.id).nextId = st.nextId + 1 :=
              duplicationBase_nextId cfg st n.id
            have hfnew := duplicationBase_find_new cfg st hb hfind
            have hdupf : (if st.itemFromDifferentEditor n.id cfg.editorField = true
                then cfg.editorField else orig.field) = cfg.editorField := by
              by_cases hd : st.itemFromDifferentEditor n.id cfg.editorField = true
              · rw [if_pos hd]
              · rw [if_neg hd]
                exact diff_false_field hfind (Bool.not_eq_true _ ▸ (by simpa using hd))
            have pre' : MasterPre cfg ns (duplicationBase cfg st n.id)
                (mem ++ [st.nextId]) (covered ++ [st.nextId]) := {
              wf := hwf1
              docB := by
                intro m hm
                rw [hnext1]
                exact Nat.lt_succ_of_lt (pre.docB m (List.mem_cons_of_mem _ hm))
              memB := by
                intro x hx
                rw [hnext1]
                rcases List.mem_append.mp hx with hx1 | hx1
                · exact Nat.lt_succ_of_lt (pre.memB x hx1)
                · rw [List.mem_singleton.mp hx1]
                  exact Nat.lt_succ_self _
              memCov := by
                intro x hx
                rcases List.mem_append.mp hx with hx1 | hx1
                · exact List.mem_append_left _ (pre.memCov x hx1)
                · exact List.mem_append_right _ hx1
              act := by
                intro it1 hit1 hac hf
                by_cases hid : it1.id = st.nextId
                · exact Or.inr (List.mem_append_right _
                    (by rw [hid]; exact List.mem_singleton_self _))
                · have hf1 : (duplicationBase cfg st n.id).find it1.id = some it1 :=
                    mem_nodup_find _ hwf1.2 hit1
                  rw [hfo it1.id hid] at hf1
                  have hit0 : it1 ∈ st.items := M2AStore.find_mem hf1
                  rcases pre.act it1 hit0 hac hf with hmem | hcov
                  · rw [List.map_cons] at hmem
                    rcases List.mem_cons.mp hmem with heq | hmem2
                    · by_cases hu : mem.contains n.id = true
                      · refine Or.inr (List.mem_append_left _ ?_)
                        rw [heq]
                        exact pre.memCov n.id (by simpa using hu)
                      · have hd : st.itemFromDifferentEditor n.id cfg.editorField = true := by
                          rcases hfail with hc | hd
                          · exact absurd hc hu
                          · exact hd
                        exfalso
                        have heq2 : it1 = orig := by
                          rw [heq] at hf1
                          rw [hfind] at hf1
                          exact (Option.some.inj hf1).symm
                        subst heq2
                        exact (diff_true_field hfind hd) hf
                    · exact Or.inl hmem2
                  · exact Or.inr (List.mem_append_left _ hcov)
              seen := by
                intro x hx
                rcases List.mem_append.mp hx with hx1 | hx1
                · obtain ⟨it, hfx, hact⟩ := pre.seen x hx1
                  refine ⟨it, ?_, hact⟩
                  rw [hfo x (Nat.ne_of_lt (pre.memB x hx1))]
                  exact hfx
                · rw [List.mem_singleton.mp hx1]
                  exact ⟨_, hfnew, rfl⟩ }
            have MP := go_master cfg ns (duplicationBase cfg st n.id)
              (mem ++ [st.nextId]) (covered ++ [st.nextId]) rest h2 pre'
            have hnextLe : st.nextId ≤ rest.store.nextId := by
              have := MP.nextLe
              rw [hnext1] at this
              exact Nat.le_trans (Nat.le_succ _) this
            have htailne : ∀ m ∈ rest.doc, m.id ≠ st.nextId := by
              intro m hm
              rcases MP.docIds m hm with hml | hmr
              · obtain ⟨z, hz, hzeq⟩ := List.mem_map.mp hml
                rw [← hzeq]
                exact Nat.ne_of_lt (pre.docB z (List.mem_cons_of_mem _ hz))
              · rw [hnext1] at hmr
                intro heq
                rw [heq] at hmr
                exact Nat.not_succ_le_self _ hmr
            exact {
              wf := MP.wf
              nextLe := hnextLe
              docBounds := by
                intro m hm
                rcases List.mem_cons.mp hm with heq | hm2
                · rw [heq]
                  show st.nextId < rest.store.nextId
                  have := MP.nextLe
                  rw [hnext1] at this
                  exact Nat.lt_of_lt_of_le (Nat.lt_succ_self _) this
                · exact MP.docBounds m hm2
              docIds := by
                intro m hm
                rcases List.mem_cons.mp hm with heq | hm2
                · rw [heq]
                  exact Or.inr (Nat.le_refl _)
                · rcases MP.docIds m hm2 with hml | hmr
                  · exact Or.inl (by rw [List.map_cons]; exact List.mem_cons_of_mem _ hml)
                  · refine Or.inr ?_
                    rw [hnext1] at hmr
                    exact Nat.le_trans (Nat.le_succ _) hmr
              activeOwned := by
                intro m hm it hit
                rcases List.mem_cons.mp hm with heq | hm2
                · rw [heq] at hit
                  obtain ⟨it2, hit2, hid2, hnew2, hitem2, hact2, hf2⟩ :=
                    MP.pres st.nextId _ hfnew
                  have heq2 : it = it2 := by
                    rw [hit2] at hit
                    exact (Option.some.inj hit).symm
                  subst heq2
                  refine ⟨hact2 rfl, ?_⟩
                  rcases hf2 with hf2 | hf2
                  · rw [hf2]
                    exact hdupf
                  · exact hf2
                · exact MP.activeOwned m hm2 it hit
              pairSep := by
                rw [List.pairwise_cons]
                refine ⟨?_, MP.pairSep⟩
                intro m hm heq
                exfalso
                exact htailne m hm (by rw [← heq])
              coverage := by
                intro it hit hac hf
                rcases MP.coverage it hit hac hf with hml | hmr
                · exact Or.inl (by rw [List.map_cons]; exact List.mem_cons_of_mem _ hml)
                · rcases List.mem_append.mp hmr with hc | hc
                  · exact Or.inr hc
                  · refine Or.inl ?_
                    rw [List.mem_singleton.mp hc, List.map_cons]
                    exact List.mem_cons_self _ _
              pres := by
                intro x it hx
                have hxlt : x < st.nextId := by
                  have h1b := hb it (M2AStore.find_mem hx)
                  rw [M2AStore.find_eq_id hx] at h1b
                  exact h1b
                apply MP.pres x it
                rw [hfo x (Nat.ne_of_lt hxlt)]
                exact hx
              existsLow := by
                intro x hxlt
                rw [MP.existsLow x (by rw [hnext1]; exact Nat.lt_succ_of_lt hxlt)]
                exact itemExists_congr (hfo x (Nat.ne_of_lt hxlt))
              docEx := by
                intro hall m hm
                rcases List.mem_cons.mp hm with heq | hm2
                · rw [heq]
                  obtain ⟨it2, hit2, _⟩ := MP.pres st.nextId _ hfnew
                  show rest.store.itemExists st.nextId = true
                  unfold M2AStore.itemExists
                  rw [hit2]
                  rfl
                · refine MP.docEx (fun z hz => ?_) m hm2
                  rw [itemExists_congr (hfo z.id
                    (Nat.ne_of_lt (pre.docB z (List.mem_cons_of_mem _ hz))))]
                  exact hall z (List.mem_cons_of_mem _ hz)
              memAway := by
                intro x hx hex2
                obtain ⟨it, hfx, hact⟩ := hex2
                have hxlt : x < st.nextId := pre.memB x hx
                have hrec := MP.memAway x (List.mem_append_left _ hx)
                  ⟨it, by rw [hfo x (Nat.ne_of_lt hxlt)]; exact hfx, hact⟩
                intro hmem
                rw [List.map_cons] at hmem
                rcases List.mem_cons.mp hmem with heq | hmem2
                · exact Nat.ne_of_lt hxlt heq
                · exact hrec hmem2
              len := by rw [List.length_cons, List.length_cons, MP.len]
              keeps := by
                intro i x y hxi hyi hxm hearlier hdiffx
                cases i with
                | zero =>
                    simp only [List.getElem?_cons_zero] at hxi hyi
                    injection hxi with hxi
                    subst hxi
                    exfalso
                    rcases hfail with hc | hd
                    · exact hxm (by simpa using hc)
                    · rw [hdiffx] at hd
                      cases hd
                | succ i =>
                    simp only [List.getElem?_cons_succ] at hxi hyi
                    have hxlt : x.id < st.nextId :=
                      pre.docB x (List.mem_cons_of_mem _ (List.getElem?_mem hxi))
                    apply MP.keeps i x y hxi hyi
                    · intro hmem
                      rcases List.mem_append.mp hmem with hc | hc
                      · exact hxm hc
                      · exact Nat.ne_of_lt hxlt (List.mem_singleton.mp hc)
                    · intro j z hj hz
                      exact hearlier (j+1) z (Nat.succ_lt_succ hj)
                        (by simp only [List.getElem?_cons_succ]; exact hz)
                    · rw [itemFromDifferentEditor_congr (hfo x.id (Nat.ne_of_lt hxlt))]
                      exact hdiffx
              minted := by
                intro i x y hxi hyi hexx hante
                cases i with
                | zero =>
                    simp only [List.getElem?_cons_zero] at hxi hyi
                    injection hyi with hyi
                    subst hyi
                    exact Nat.le_refl _
                | succ i =>
                    simp only [List.getElem?_cons_succ] at hxi hyi
                    have hxlt : x.id < st.nextId :=
                      pre.docB x (List.mem_cons_of_mem _ (List.getElem?_mem hxi))
                    have hconc := MP.minted i x y hxi hyi
                      (by rw [itemExists_congr (hfo x.id (Nat.ne_of_lt hxlt))]; exact hexx)
                      ?ante
                    case ante =>
                      rcases hante with hmem | ⟨it, hit, hac, hfne⟩ | ⟨j, z, hj, hz, hzeq⟩
                      · exact Or.inl (List.mem_append_left _ hmem)
                      · exact Or.inr (Or.inl ⟨it,
                          by rw [hfo x.id (Nat.ne_of_lt hxlt)]; exact hit, hac, hfne⟩)
                      · cases j with
                        | zero =>
                            simp only [List.getElem?_cons_zero] at hz
                            injection hz with hz
                            subst hz
                            by_cases hu : mem.contains n.id = true
                            · refine Or.inl (List.mem_append_left _ ?_)
                              rw [← hzeq]
                              simpa using hu
                            · have hd : st.itemFromDifferentEditor n.id cfg.editorField
                                  = true := by
                                rcases hfail with hc | hd
                                · exact absurd hc hu
                                · exact hd
                              refine Or.inr (Or.inl ⟨orig, ?_, ha, diff_true_field hfind hd⟩)
                              rw [← hzeq]
                              rw [hfo n.id hnn]
                              exact hfind
                        | succ j =>
                            simp only [List.getElem?_cons_succ] at hz
                            exact Or.inr (Or.inr ⟨j, z, Nat.lt_of_succ_lt_succ hj, hz, hzeq⟩)
                    rw [hnext1] at hconc
                    exact Nat.le_trans (Nat.le_succ _) hconc }
        · -- ACT branch
          have haf : orig.active = false := Bool.not_eq_true _ ▸ (by simpa using ha)
          obtain ⟨st2, rc, sc, hstep, hshape⟩ := step_act_shape cfg st mem n hfind haf
          have hshape2 : ActShape cfg st n.id st2 := hshape
          rw [hstep] at h1
          injection h1 with h1
          subst h1
          have hfo : ∀ x, x ≠ n.id → st2.find x = st.find x := hshape2.find_other
          obtain ⟨actIt, hfs, hfsid, hfsact, hfsnew, hfsitem, hfsfield⟩ :=
            hshape2.find_self hfind
          have hnext2 : st2.nextId = st.nextId := hshape2.nextId_eq
          have hwf2 : storeWF st2 := hshape2.wf pre.wf
          have hexeq : ∀ x, st2.itemExists x = st.itemExists x := hshape2.exists_eq hfind
          have hactF : actIt.field = cfg.editorField := by
            rw [hfsfield]
            by_cases hd : st.itemFromDifferentEditor n.id cfg.editorField = true
            · rw [if_pos hd]
            · rw [if_neg hd]
              exact diff_false_field hfind (Bool.not_eq_true _ ▸ (by simpa using hd))
          have hnotmem : ∀ x ∈ mem, x ≠ n.id := by
            intro x hx heq
            obtain ⟨it, hfx, hact⟩ := pre.seen x hx
            rw [heq, hfind] at hfx
            have heq2 : it = orig := (Option.some.inj hfx).symm
            rw [heq2, haf] at hact
            cases hact
          have pre' : MasterPre cfg ns st2 (mem ++ [n.id]) (covered ++ [n.id]) := {
            wf := hwf2
            docB := by
              intro m hm
              rw [hnext2]
              exact pre.docB m (List.mem_cons_of_mem _ hm)
            memB := by
              intro x hx
              rw [hnext2]
              rcases List.mem_append.mp hx with hx1 | hx1
              · exact pre.memB x hx1
              · rw [List.mem_singleton.mp hx1]
                exact pre.docB n (List.mem_cons_self _ _)
            memCov := by
              intro x hx
              rcases List.mem_append.mp hx with hx1 | hx1
              · exact List.mem_append_left _ (pre.memCov x hx1)
              · exact List.mem_append_right _ hx1
            act := by
              intro it1 hit1 hac hf
              by_cases hid : it1.id = n.id
              · exact Or.inr (List.mem_append_right _
                  (by rw [hid]; exact List.mem_singleton_self _))
              · have hf1 : st2.find it1.id = some it1 := mem_nodup_find _ hwf2.2 hit1
                rw [hfo it1.id hid] at hf1
                have hit0 := M2AStore.find_mem hf1
                rcases pre.act it1 hit0 hac hf with hmem | hcov
                · rw [List.map_cons] at hmem
                  rcases List.mem_cons.mp hmem with heq | hmem2
                  · exact absurd heq hid
                  · exact Or.inl hmem2
                · exact Or.inr (List.mem_append_left _ hcov)
            seen := by
              intro x hx
              rcases List.mem_append.mp hx with hx1 | hx1
              · obtain ⟨it, hfx, hact⟩ := pre.seen x hx1
                refine ⟨it, ?_, hact⟩
                rw [hfo x (hnotmem x hx1)]
                exact hfx
              · rw [List.mem_singleton.mp hx1]
                exact ⟨actIt, hfs, hfsact⟩ }
          have MP := go_master cfg ns st2 (mem ++ [n.id]) (covered ++ [n.id]) rest h2 pre'
          have hnid_away : n.id ∉ rest.doc.map (·.id) := by
            apply MP.memAway n.id (List.mem_append_right _ (List.mem_singleton_self _))
            exact ⟨actIt, hfs, hfsact⟩
          exact {
            wf := MP.wf
            nextLe := by
              rw [← hnext2]
              exact MP.nextLe
            docBounds := by
              intro m hm
              rcases List.mem_cons.mp hm with heq | hm2
              · rw [heq]
                have h1b := pre.docB n (List.mem_cons_self _ _)
                rw [← hnext2] at h1b
                exact Nat.lt_of_lt_of_le h1b MP.nextLe
              · exact MP.docBounds m hm2
            docIds := by
              intro m hm
              rcases List.mem_cons.mp hm with heq | hm2
              · subst heq
                exact Or.inl (by rw [List.map_cons]; exact List.mem_cons_self _ _)
              · rcases MP.docIds m hm2 with hml | hmr
                · exact Or.inl (by rw [List.map_cons]; exact List.mem_cons_of_mem _ hml)
                · refine Or.inr ?_
                  rw [← hnext2]
                  exact hmr
            activeOwned := by
              intro m hm it hit
              rcases List.mem_cons.mp hm with heq | hm2
              · rw [heq] at hit
                obtain ⟨it2, hit2, hid2, hnew2, hitem2, hact2, hf2⟩ :=
                  MP.pres n.id actIt hfs
                have heq2 : it = it2 := by
                  rw [hit2] at hit
                  exact (Option.some.inj hit).symm
                subst heq2
                refine ⟨hact2 hfsact, ?_⟩
                rcases hf2 with hf2 | hf2
                · rw [hf2]
                  exact hactF
                · exact hf2
              · exact MP.activeOwned m hm2 it hit
            pairSep := by
              rw [List.pairwise_cons]
              refine ⟨?_, MP.pairSep⟩
              intro m hm heq
              exfalso
              apply hnid_away
              rw [heq]
              exact List.mem_map_of_mem _ hm
            coverage := by
              intro it hit hac hf
              rcases MP.coverage it hit hac hf with hml | hmr
              · exact Or.inl (by rw [List.map_cons]; exact List.mem_cons_of_mem _ hml)
              · rcases List.mem_append.mp hmr with hc | hc
                · exact Or.inr hc
                · refine Or.inl ?_
                  rw [List.mem_singleton.mp hc, List.map_cons]
                  exact List.mem_cons_self _ _
            pres := by
              intro x it hx
              by_cases hxn : x = n.id
              · subst hxn
                have heq2 : it = orig := by
                  rw [hfind] at hx
                  exact (Option.some.inj hx).symm
                obtain ⟨it2, hit2, hid2, hnew2, hitem2, hact2, hf2⟩ :=
                  MP.pres n.id actIt hfs
                refine ⟨it2, hit2, ?_, ?_, ?_, ?_, ?_⟩
                · rw [hid2, hfsid, heq2]
                · rw [hnew2, hfsnew, heq2]
                · rw [hitem2, hfsitem, heq2]
                · intro _
                  exact hact2 hfsact
                · refine Or.inr ?_
                  rcases hf2 with hf2 | hf2
                  · rw [hf2]
                    exact hactF
                  · exact hf2
              · obtain ⟨it2, hit2, hid2, hnew2, hitem2, hact2, hf2⟩ :=
                  MP.pres x it (by rw [hfo x hxn]; exact hx)
                exact ⟨it2, hit2, hid2, hnew2, hitem2, hact2, hf2⟩
            existsLow := by
              intro x hxlt
              rw [MP.existsLow x (by rw [hnext2]; exact hxlt)]
              exact hexeq x
            docEx := by
              intro hall m hm
              rcases List.mem_cons.mp hm with heq | hm2
              · rw [heq]
                obtain ⟨it2, hit2, _⟩ := MP.pres n.id actIt hfs
                unfold M2AStore.itemExists
                rw [hit2]
                rfl
              · refine MP.docEx (fun z hz => ?_) m hm2
                rw [hexeq z.id]
                exact hall z (List.mem_cons_of_mem _ hz)
            memAway := by
              intro x hx hex2
              obtain ⟨it, hfx, hact⟩ := hex2
              have hxne : x ≠ n.id := hnotmem x hx
              have hrec := MP.memAway x (List.mem_append_left _ hx)
                ⟨it, by rw [hfo x hxne]; exact hfx, hact⟩
              intro hmem
              rw [List.map_cons] at hmem
              rcases List.mem_cons.mp hmem with heq | hmem2
              · exact hxne heq
              · exact hrec hmem2
            len := by rw [List.length_cons, List.length_cons, MP.len]
            keeps := by
              intro i x y hxi hyi hxm hearlier hdiffx
              cases i with
              | zero =>
                  simp only [List.getElem?_cons_zero] at hxi hyi
                  injection hxi with hxi
                  injection hyi with hyi
                  subst hxi
                  subst hyi
                  rfl
              | succ i =>
                  simp only [List.getElem?_cons_succ] at hxi hyi
                  have hxne : x.id ≠ n.id := by
                    intro heq
                    exact hearlier 0 n (Nat.succ_pos _)
                      (by simp only [List.getElem?_cons_zero]) heq.symm
                  apply MP.keeps i x y hxi hyi
                  · intro hmem
                    rcases List.mem_append.mp hmem with hc | hc
                    · exact hxm hc
                    · exact hxne (List.mem_singleton.mp hc)
                  · intro j z hj hz
                    exact hearlier (j+1) z (Nat.succ_lt_succ hj)
                      (by simp only [List.getElem?_cons_succ]; exact hz)
                  · rw [itemFromDifferentEditor_congr (hfo x.id hxne)]
                    exact hdiffx
            minted := by
              intro i x y hxi hyi hexx hante
              cases i with
              | zero =>
                  simp only [List.getElem?_cons_zero] at hxi hyi
                  injection hxi with hxi
                  subst hxi
                  exfalso
                  rcases hante with hmem | ⟨it, hit, hac, hfne⟩ | ⟨j, z, hj, _, _⟩
                  · exact hnotmem n.id hmem rfl
                  · have heq2 : it = orig := by
                      rw [hfind] at hit
                      exact (Option.some.inj hit).symm
                    rw [heq2, haf] at hac
                    cases hac
                  · exact Nat.not_lt_zero j hj
              | succ i =>
                  simp only [List.getElem?_cons_succ] at hxi hyi
                  have hconc := MP.minted i x y hxi hyi
                    (by rw [hexeq x.id]; exact hexx) ?ante
                  case ante =>
                    rcases hante with hmem | ⟨it, hit, hac, hfne⟩ | ⟨j, z, hj, hz, hzeq⟩
                    · exact Or.inl (List.mem_append_left _ hmem)
                    · by_cases hxn : x.id = n.id
                      · exfalso
                        rw [hxn, hfind] at hit
                        have heq2 : it = orig := (Option.some.inj hit).symm
                        rw [heq2, haf] at hac
                        cases hac
                      · exact Or.inr (Or.inl ⟨it, by rw [hfo x.id hxn]; exact hit, hac, hfne⟩)
                    · cases j with
                      | zero =>
                          simp only [List.getElem?_cons_zero] at hz
                          injection hz with hz
                          subst hz
                          exact Or.inl (List.mem_append_right _
                            (by rw [← hzeq]; exact List.mem_singleton_self _))
                      | succ j =>
                          simp only [List.getElem?_cons_succ] at hz
                          exact Or.inr (Or.inr ⟨j, z, Nat.lt_of_succ_lt_succ hj, hz, hzeq⟩)
                  rw [← hnext2]
                  exact hconc }
      · -- ORPHAN branch: the node is skipped, state unchanged
        have hexf : st.itemExists n.id = false := Bool.not_eq_true _ ▸ (by simpa using hex)
        rw [step_orphan cfg st mem n hexf] at h1
        injection h1 with h1
        subst h1
        have pre' : MasterPre cfg ns st mem (covered ++ [n.id]) := {
          wf := pre.wf
          docB := fun m hm => pre.docB m (List.mem_cons_of_mem _ hm)
          memB := pre.memB
          memCov := fun x hx => List.mem_append_left _ (pre.memCov x hx)
          act := by
            intro it hit hac hf
            rcases pre.act it hit hac hf with hmem | hcov
            · rw [List.map_cons] at hmem
              rcases List.mem_cons.mp hmem with heq | hmem2
              · exact Or.inr (List.mem_append_right _
                  (by rw [heq]; exact List.mem_singleton_self _))
              · exact Or.inl hmem2
            · exact Or.inr (List.mem_append_left _ hcov)
          seen := pre.seen }
        have MP := go_master cfg ns st mem (covered ++ [n.id]) rest h2 pre'
        have hexfin : rest.store.itemExists n.id = false := by
          rw [MP.existsLow n.id (pre.docB n (List.mem_cons_self _ _))]
          exact hexf
        exact {
          wf := MP.wf
          nextLe := MP.nextLe
          docBounds := by
            intro m hm
            rcases List.mem_cons.mp hm with heq | hm2
            · rw [heq]
              exact Nat.lt_of_lt_of_le (pre.docB n (List.mem_cons_self _ _)) MP.nextLe
            · exact MP.docBounds m hm2
          docIds := by
            intro m hm
            rcases List.mem_cons.mp hm with heq | hm2
            · subst heq
              exact Or.inl (by rw [List.map_cons]; exact List.mem_cons_self _ _)
            · rcases MP.docIds m hm2 with hml | hmr
              · exact Or.inl (by rw [List.map_cons]; exact List.mem_cons_of_mem _ hml)
              · exact Or.inr hmr
          activeOwned := by
            intro m hm it hit
            rcases List.mem_cons.mp hm with heq | hm2
            · subst heq
              rw [M2AStore.itemExists_none hexfin] at hit
              cases hit
            · exact MP.activeOwned m hm2 it hit
          pairSep := by
            rw [List.pairwise_cons]
            exact ⟨fun m _ _ => hexfin, MP.pairSep⟩
          coverage := by
            intro it hit hac hf
            rcases MP.coverage it hit hac hf with hml | hmr
            · exact Or.inl (by rw [List.map_cons]; exact List.mem_cons_of_mem _ hml)
            · rcases List.mem_append.mp hmr with hc | hc
              · exact Or.inr hc
              · refine Or.inl ?_
                rw [List.mem_singleton.mp hc, List.map_cons]
                exact List.mem_cons_self _ _
          pres := MP.pres
          existsLow := MP.existsLow
          docEx := by
            intro hall m hm
            exfalso
            have := hall n (List.mem_cons_self _ _)
            rw [hexf] at this
            cases this
          memAway := by
            intro x hx hex2
            have h1 := MP.memAway x hx hex2
            intro hmem
            rw [List.map_cons] at hmem
            rcases List.mem_cons.mp hmem with heq | hmem2
            · obtain ⟨it, hit, _⟩ := hex2
              rw [heq] at hit
              rw [M2AStore.itemExists_none hexf] at hit
              cases hit
            · exact h1 hmem2
          len := by rw [List.length_cons, List.length_cons, MP.len]
          keeps := by
            intro i x y hxi hyi hxm hearlier hdiffx
            cases i with
            | zero =>
                simp only [List.getElem?_cons_zero] at hxi hyi
                injection hxi with hxi
                injection hyi with hyi
                subst hxi
                subst hyi
                rfl
            | succ i =>
                simp only [List.getElem?_cons_succ] at hxi hyi
                apply MP.keeps i x y hxi hyi hxm
                · intro j z hj hz
                  exact hearlier (j+1) z (Nat.succ_lt_succ hj)
                    (by simp only [List.getElem?_cons_succ]; exact hz)
                · exact hdiffx
          minted := by
            intro i x y hxi hyi hexx hante
            cases i with
            | zero =>
                simp only [List.getElem?_cons_zero] at hxi hyi
                injection hxi with hxi
                subst hxi
                rw [hexf] at hexx
                cases hexx
            | succ i =>
                simp only [List.getElem?_cons_succ] at hxi hyi
                apply MP.minted i x y hxi hyi hexx
                rcases hante with hmem | hdiffa | ⟨j, z, hj, hz, hzeq⟩
                · exact Or.inl hmem
                · exact Or.inr (Or.inl hdiffa)
                · cases j with
                  | zero =>
                      simp only [List.getElem?_cons_zero] at hz
                      injection hz with hz
                      subst hz
                      exfalso
                      rw [← hzeq] at hexx
                      rw [hexf] at hexx
                      cases hexx
                  | succ j =>
                      simp only [List.getElem?_cons_succ] at hz
                      exact Or.inr (Or.inr ⟨j, z, Nat.lt_of_succ_lt_succ hj, hz, hzeq⟩) }

end FlexibleEditor

namespace FlexibleEditor

/-! ### Pass-level assembly for the whole-document claims -/

theorem M2AStore.deact_wf (s : M2AStore) (ids : List UUID) (F : EField)
    (hwf : storeWF s) : storeWF (s.deactivateUnusedItems ids F).1 := by
  obtain ⟨hb, hnd⟩ := hwf
  constructor
  · intro it1 hit1
    have : it1.id ∈ (s.deactivateUnusedItems ids F).1.items.map (·.id) :=
      List.mem_map_of_mem _ hit1
    rw [M2AStore.deact_ids] at this
    obtain ⟨it0, hit0, heq⟩ := List.mem_map.mp this
    rw [M2AStore.deact_nextId, ← heq]
    exact hb it0 hit0
  · rw [M2AStore.deact_ids]
    exact hnd

theorem M2AStore.deact_exists (s : M2AStore) (ids : List UUID) (F : EField) (x : UUID) :
    (s.deactivateUnusedItems ids F).1.itemExists x = s.itemExists x := by
  unfold M2AStore.itemExists
  rw [M2AStore.deact_find]
  rw [Option.isSome_map']

theorem M2AStore.deact_diff (s : M2AStore) (ids : List UUID) (F G : EField) (x : UUID) :
    (s.deactivateUnusedItems ids F).1.itemFromDifferentEditor x G
      = s.itemFromDifferentEditor x G := by
  unfold M2AStore.itemFromDifferentEditor
  rw [M2AStore.deact_find]
  cases s.find x with
  | none => rfl
  | some it =>
      by_cases hc : M2AStore.unusedHere ids F it
      · simp [hc]
      · simp [hc]

theorem insertion_noop_of_stable (cfg : SyncConfig) :
    ∀ (doc : List RelNode) (st : M2AStore) (mem : List UUID),
      (∀ n ∈ doc, ∀ it, st.find n.id = some it →
        it.active = true ∧ it.field = cfg.editorField) →
      List.Pairwise (fun a b : RelNode => a.id = b.id → st.itemExists a.id = false) doc →
      (∀ n ∈ doc, st.itemExists n.id = true → n.id ∉ mem) →
      ∃ m2, syncInsertedNodes cfg st mem doc = .ok ⟨st, doc, m2, [], []⟩
  | [], st, mem, h1, h2, h3 => ⟨mem, rfl⟩
  | n :: ns, st, mem, h1, h2, h3 => by
      rw [List.pairwise_cons] at h2
      obtain ⟨h2head, h2tail⟩ := h2
      by_cases hex : st.itemExists n.id = true
      · obtain ⟨orig, hfind⟩ := M2AStore.itemExists_iff.mp hex
        obtain ⟨hact, hfield⟩ := h1 n (List.mem_cons_self _ _) orig hfind
        have hu : mem.contains n.id = false := by
          have hh := h3 n (List.mem_cons_self _ _) hex
          simpa using hh
        have hd : st.itemFromDifferentEditor n.id cfg.editorField = false := by
          unfold M2AStore.itemFromDifferentEditor
          rw [hfind]
          simp [hfield]
        obtain ⟨m2, hrec⟩ := insertion_noop_of_stable cfg ns st (mem ++ [n.id])
          (fun m hm => h1 m (List.mem_cons_of_mem _ hm)) h2tail (by
            intro m hm hexm hmem
            rcases List.mem_append.mp hmem with hc | hc
            · exact h3 m (List.mem_cons_of_mem _ hm) hexm hc
            · have hfalse := h2head m hm (List.mem_singleton.mp hc).symm
              rw [hfalse] at hex
              cases hex)
        refine ⟨m2, ?_⟩
        rw [syncInsertedNodes_cons_ok cfg st mem n ns
          (step_noop cfg st mem n hfind hact hu hd) hrec]
        rfl
      · have hexf : st.itemExists n.id = false := Bool.not_eq_true _ ▸ (by simpa using hex)
        obtain ⟨m2, hrec⟩ := insertion_noop_of_stable cfg ns st mem
          (fun m hm => h1 m (List.mem_cons_of_mem _ hm)) h2tail
          (fun m hm hexm => h3 m (List.mem_cons_of_mem _ hm) hexm)
        refine ⟨m2, ?_⟩
        rw [syncInsertedNodes_cons_ok cfg st mem n ns
          (step_orphan cfg st mem n hexf) hrec]
        rfl

theorem pass_master (cfg : SyncConfig) (st0 : M2AStore) (doc0 : List RelNode)
    (hwf : storeWF st0) (hdoc : docBound st0 doc0) {oi : PassOut}
    (hins : syncInsertedNodes cfg (syncRemovedNodes cfg st0 doc0).1 [] doc0 = .ok oi) :
    MasterPost cfg doc0 (syncRemovedNodes cfg st0 doc0).1 [] [] oi := by
  apply go_master cfg doc0 (syncRemovedNodes cfg st0 doc0).1 [] [] oi hins
  exact {
    wf := M2AStore.deact_wf st0 _ _ hwf
    docB := by
      intro m hm
      show m.id < (st0.deactivateUnusedItems (doc0.map (·.id)) cfg.editorField).1.nextId
      rw [M2AStore.deact_nextId]
      exact hdoc m hm
    memB := by intro x hx; cases hx
    memCov := by intro x hx; cases hx
    act := by
      intro it hit ha hf
      have hit2 : it ∈ (st0.deactivateUnusedItems (doc0.map (·.id)) cfg.editorField).1.items :=
        hit
      exact Or.inl (M2AStore.deact_post st0 (doc0.map (·.id)) cfg.editorField it hit2 ha hf)
    seen := by intro x hx; cases hx }

end FlexibleEditor

namespace FlexibleEditor

/-- C1: idempotence.  Given UUID freshness (all identities below the
fresh counter) and a keyed store, after one synchronization pass
completes, a second pass over the resulting document and store performs
no store mutation and no relation-collection call, and leaves document
and store unchanged. -/
theorem sync_idempotent (cfg : SyncConfig) (st0 : M2AStore) (doc0 : List RelNode)
    (hwf : storeWF st0) (hdoc : docBound st0 doc0) {o1 : PassOut}
    (h1 : syncRelationNodes cfg st0 doc0 = .ok o1) :
    ∃ o2, syncRelationNodes cfg o1.store o1.doc = .ok o2 ∧
      o2.store = o1.store ∧ o2.doc = o1.doc ∧
      o2.relCalls = [] ∧ o2.storeCalls = [] := by
  obtain ⟨oi, hins, ho⟩ := syncRelationNodes_inv cfg st0 doc0 h1
  subst ho
  have MP := pass_master cfg st0 doc0 hwf hdoc hins
  have hr2 : oi.store.deactivateUnusedItems (oi.doc.map (·.id)) cfg.editorField
      = (oi.store, []) := by
    apply M2AStore.deact_noop
    intro it hit
    unfold M2AStore.unusedHere
    by_cases hia : it.active = true
    · by_cases hif : it.field = cfg.editorField
      · rcases MP.coverage it hit hia hif with hm | hm
        · simp [hm]
        · cases hm
      · simp [hif]
    · have hia2 : it.active = false := Bool.not_eq_true _ ▸ (by simpa using hia)
      simp [hia2]
  obtain ⟨m2, hins2⟩ := insertion_noop_of_stable cfg oi.doc oi.store []
    MP.activeOwned MP.pairSep (fun n _ _ hmem => (List.not_mem_nil n.id) hmem)
  have hrm2 : syncRemovedNodes cfg oi.store oi.doc = (oi.store, []) := hr2
  have hpass := syncRelationNodes_eq cfg oi.store oi.doc
    (by rw [hrm2]; exact hins2)
  rw [hrm2] at hpass
  exact ⟨⟨oi.store, oi.doc, m2, [], []⟩, hpass, rfl, rfl, rfl, rfl⟩

/-- Witness for C1 at a concrete input: one active owned node, second
pass is silent. -/
theorem sync_idempotent_witness :
    ∃ o2, syncRelationNodes ⟨⟨[]⟩, some "f"⟩
        ⟨[⟨0, true, false, some "f", none, []⟩], 1⟩ [⟨0, []⟩] = .ok o2 ∧
      o2.store = ⟨[⟨0, true, false, some "f", none, []⟩], 1⟩ ∧
      o2.doc = [⟨0, []⟩] ∧ o2.relCalls = [] ∧ o2.storeCalls = [] := by
  obtain ⟨o2, h, hs, hd, hr, hc⟩ := sync_idempotent ⟨⟨[]⟩, some "f"⟩
    ⟨[⟨0, true, false, some "f", none, []⟩], 1⟩ [⟨0, []⟩]
    (by decide) (by decide) rfl
  exact ⟨o2, h, hs, hd, hr, hc⟩

/-- C2 counterexample: a store item owned by another editor field: the
only (hence first) node carrying its identity does NOT keep it — the
node is re-identified even though it is the first occurrence. -/
theorem first_node_reidentified_cross_field :
    (⟨[⟨1, true, true, some "g", none, []⟩], 2⟩ : M2AStore).itemExists 1 = true ∧
    syncRelationNodes ⟨⟨[]⟩, some "f"⟩ ⟨[⟨1, true, true, some "g", none, []⟩], 2⟩ [⟨1, []⟩]
      = .ok ⟨⟨[⟨1, true, true, some "g", none, []⟩, ⟨2, true, true, some "f", none, []⟩], 3⟩,
             [⟨2, []⟩], [2], [RelCall.create []],
             [StoreCall.duplicateItem 1 2, StoreCall.setField 2 (some "f")]⟩ ∧
    (2 : UUID) ≠ 1 := by
  exact ⟨rfl, rfl, by decide⟩

/-- C2 amended: for documents in which every node identity exists in
the store (and UUID freshness holds), after a pass no two reference
nodes share an identity; the first node in document order carrying a
given identity keeps it provided the identity is not owned by a
different editor field (a cross-field first occurrence is re-identified
as well), and every later node sharing an identity is re-identified
with a freshly minted identity. -/
theorem post_pass_identity_uniqueness (cfg : SyncConfig) (st0 : M2AStore)
    (doc0 : List RelNode) (hwf : storeWF st0) (hdoc : docBound st0 doc0)
    (hex : ∀ n ∈ doc0, st0.itemExists n.id = true) {o : PassOut}
    (h : syncRelationNodes cfg st0 doc0 = .ok o) :
    (o.doc.map (·.id)).Nodup ∧
    (∀ (i : Nat) (x y : RelNode), doc0[i]? = some x → o.doc[i]? = some y →
      (∀ (j : Nat) (z : RelNode), j < i → doc0[j]? = some z → z.id ≠ x.id) →
      st0.itemFromDifferentEditor x.id cfg.editorField = false →
      y.id = x.id) ∧
    (∀ (i : Nat) (x y : RelNode), doc0[i]? = some x → o.doc[i]? = some y →
      (∃ (j : Nat) (z : RelNode), j < i ∧ doc0[j]? = some z ∧ z.id = x.id) →
      st0.nextId ≤ y.id ∧ y.id ≠ x.id) := by
  obtain ⟨oi, hins, ho⟩ := syncRelationNodes_inv cfg st0 doc0 h
  subst ho
  have MP := pass_master cfg st0 doc0 hwf hdoc hins
  have hnx : (syncRemovedNodes cfg st0 doc0).1.nextId = st0.nextId :=
    M2AStore.deact_nextId st0 _ _
  have hex1 : ∀ n ∈ doc0, (syncRemovedNodes cfg st0 doc0).1.itemExists n.id = true := by
    intro n hn
    show (st0.deactivateUnusedItems (doc0.map (·.id)) cfg.editorField).1.itemExists n.id
      = true
    rw [M2AStore.deact_exists]
    exact hex n hn
  refine ⟨?_, ?_, ?_⟩
  · have hAllEx := MP.docEx hex1
    show (oi.doc.map (·.id)).Nodup
    rw [List.Nodup, List.pairwise_map]
    refine (MP.pairSep).imp_of_mem ?_
    intro a b hma hmb hrel heq
    have hfalse := hrel heq
    rw [hAllEx a hma] at hfalse
    cases hfalse
  · intro i x y hxi hyi hearlier hdiffx
    apply MP.keeps i x y hxi hyi (List.not_mem_nil _) hearlier
    show (st0.deactivateUnusedItems (doc0.map (·.id)) cfg.editorField).1.itemFromDifferentEditor
        x.id cfg.editorField = false
    rw [M2AStore.deact_diff]
    exact hdiffx
  · intro i x y hxi hyi hrep
    obtain ⟨j, z, hj, hz, hzeq⟩ := hrep
    have hconc := MP.minted i x y hxi hyi (hex1 x (List.getElem?_mem hxi))
      (Or.inr (Or.inr ⟨j, z, hj, hz, hzeq⟩))
    rw [hnx] at hconc
    refine ⟨hconc, ?_⟩
    have hxlt : x.id < st0.nextId := hdoc x (List.getElem?_mem hxi)
    intro heq
    rw [heq] at hconc
    exact Nat.not_le.mpr hxlt hconc

end FlexibleEditor

namespace FlexibleEditor

/-- Witness for the amended C2 at a concrete input: a duplicated
identity in the same document is re-identified, leaving the final
identities distinct. -/
theorem post_pass_identity_uniqueness_witness :
    ∃ o, syncRelationNodes ⟨⟨[]⟩, some "f"⟩ ⟨[⟨1, true, false, some "f", none, []⟩], 2⟩
        [⟨1, []⟩, ⟨1, []⟩] = .ok o ∧ (o.doc.map (·.id)).Nodup := by
  have h := post_pass_identity_uniqueness ⟨⟨[]⟩, some "f"⟩
    ⟨[⟨1, true, false, some "f", none, []⟩], 2⟩ [⟨1, []⟩, ⟨1, []⟩]
    (by decide) (by decide) (by decide) rfl
  exact ⟨_, rfl, h.1⟩

end FlexibleEditor
